import Mathlib

/-!
# Domestic cooking appliance controller: model of `src/main.cpp`

A shallow embedding of the control firmware (two burners, one oven, a
grid/battery power arbiter) and machine-checked statements about it.

Conventions of the embedding.

* `int` and `long` values are mathematical integers (`Int`): signed overflow
  is undefined in the source language, and with 12-bit samples every value
  stays far inside the 32-bit range.  C division and remainder truncate
  towards zero, hence `Int.tdiv` and `Int.tmod`.
* `unsigned long` values (the millisecond clock and the time stamps) are
  natural numbers below `2 ^ 32`; subtraction and multiplication wrap modulo
  `2 ^ 32` (`usub`, `shouldBeOn`), and an `int` operand is converted with
  `toULong`, as the usual arithmetic conversions do on the 32-bit target.
* One run of `loop()` is the function `loop : State → Inputs → State`.  The
  inputs of a tick are the value returned by `millis()` and the value returned
  by `analogRead` for each pin (every pin is read once per tick).
* `digitalWrite` calls are recorded in `State.gpio`, newest first; the level of
  an output pin is the level of the newest write to it (`pinLevel`).
* The display, the serial log and the `float` voltages are telemetry only and
  are left out; they never feed back into a control decision.
-/

namespace Appliance

/-! ## Constants (lines 10-31) -/

/-- `const unsigned long cycleDuration = 30000`. -/
def cycleDuration : Nat := 30000

/-- `const int hysteresisMargin = 2`. -/
def hysteresisMargin : Int := 2

/-- `const unsigned long debounceDelay = 50`. -/
def debounceDelay : Nat := 50

/-- `const int numReadings = 10`. -/
def numReadings : Int := 10

/-- `const int ovenPotPin = 32`. -/
def ovenPotPin : Int := 32

/-- `const int ovenTempSensorPin = 13`. -/
def ovenTempSensorPin : Int := 13

/-- `const int ovenBakeRelayPin = 26`. -/
def ovenBakeRelayPin : Int := 26

/-- `const int ovenBroilRelayPin = 27`. -/
def ovenBroilRelayPin : Int := 27

/-- `const int maxTotalDuty = 40`. -/
def maxTotalDuty : Int := 40

/-- `const int maxGridWatts = 1500`. -/
def maxGridWatts : Int := 1500

/-- `const int maxBatteryWatts = 3000`. -/
def maxBatteryWatts : Int := 3000

/-- `const int wattsPerDutyUnit = 100`. -/
def wattsPerDutyUnit : Int := 100

/-! ## Machine arithmetic -/

/-- Number of values of an `unsigned long` on the 32-bit target. -/
def ulongModulus : Nat := 4294967296

/-- Subtraction of two `unsigned long` values: wraps modulo `2 ^ 32`. -/
def usub (a b : Nat) : Nat := (a + ulongModulus - b % ulongModulus) % ulongModulus

/-- Conversion of an `int` to `unsigned long` (value modulo `2 ^ 32`). -/
def toULong (i : Int) : Nat := (i % (ulongModulus : Int)).toNat

/-- Modelled from the spec: the Arduino core function `map` is declared in
`Arduino.h`, which is not part of the sources; the spec describes it as a
linear rescale of the sensor range.  This is the reference implementation
`(x - in_min) * (out_max - out_min) / (in_max - in_min) + out_min` in `long`
arithmetic with truncating division. -/
def map (x in_min in_max out_min out_max : Int) : Int :=
  ((x - in_min) * (out_max - out_min)).tdiv (in_max - in_min) + out_min

/-! ## Data model -/

/-- The `struct PowerSplit` of lines 59-62. -/
structure PowerSplit where
  gridWatts : Int
  batteryWatts : Int
deriving DecidableEq

/-- The `struct HeaterUnit` of lines 78-101 (without the telemetry-only
`float voltage`). -/
structure HeaterUnit where
  label : String
  adcPin : Int
  relayPin : Int
  readings : List Int
  readIndex : Int
  total : Int
  adcValue : Int
  dutyCycle : Int
  lastDutyCycle : Int
  relayState : Bool
  lastRelayChangeTime : Nat
deriving DecidableEq

/-- The constructor `HeaterUnit(lbl, adc, relay)` of lines 93-100. -/
def HeaterUnit.ctor (lbl : String) (adc relay : Int) : HeaterUnit :=
  { label := lbl, adcPin := adc, relayPin := relay,
    readings := List.replicate 10 0,
    readIndex := 0, total := 0, adcValue := 0,
    dutyCycle := 0, lastDutyCycle := 0, relayState := false,
    lastRelayChangeTime := 0 }

/-- Record of the `digitalWrite(pin, level)` calls, newest first. -/
abbrev Gpio := List (Int × Bool)

/-- Effect of `digitalWrite(pin, level)`. -/
def digitalWrite (gpio : Gpio) (pin : Int) (level : Bool) : Gpio := (pin, level) :: gpio

/-- Level of an output pin: the newest write to it (`LOW` if never written). -/
def pinLevel : Gpio → Int → Bool
  | [], _ => false
  | (p, v) :: rest, pin => if p = pin then v else pinLevel rest pin

/-- The global variables of the program (lines 11-12, 27, 104-121) together
with the record of pin writes. -/
structure State where
  cycleStartTime : Nat
  lastDebugTime : Nat
  powerConstraintActive : Bool
  heaters : List HeaterUnit
  ovenReadings : List Int
  ovenReadIndex : Int
  ovenTotal : Int
  ovenAdcValue : Int
  ovenTempF : Int
  ovenSetpoint : Int
  ovenDutyCycle : Int
  ovenLastDutyCycle : Int
  ovenRelayState : Bool
  ovenLastRelayChangeTime : Nat
  gpio : Gpio
deriving DecidableEq

/-- What one run of `loop()` reads from the platform. -/
structure Inputs where
  millis : Nat
  analogRead : Int → Int

/-- The initialised array `heaters[]` of lines 104-107. -/
def heaters : List HeaterUnit :=
  [HeaterUnit.ctor "Burner 1" 34 12, HeaterUnit.ctor "Burner 2" 35 14]

/-- The state after the static initialisers and `setup()` (lines 123-150): every
relay pin has been written `LOW`.  (A failing display halts the program
before the first tick; that branch has no state to continue from.) -/
def setup : State :=
  { cycleStartTime := 0, lastDebugTime := 0, powerConstraintActive := false,
    heaters := heaters,
    ovenReadings := List.replicate 10 0,
    ovenReadIndex := 0, ovenTotal := 0, ovenAdcValue := 0, ovenTempF := 0,
    ovenSetpoint := 0, ovenDutyCycle := 0, ovenLastDutyCycle := 0,
    ovenRelayState := false, ovenLastRelayChangeTime := 0,
    gpio :=
      digitalWrite (digitalWrite
        (heaters.foldl (fun g h => digitalWrite g h.relayPin false) [])
        ovenBakeRelayPin false) ovenBroilRelayPin false }

/-! ## Power arbitration (lines 33-75) -/

/-- The function `getTotalDutyCycle` of lines 34-43. -/
def getTotalDutyCycle (st : State) : Int :=
  st.heaters.foldl
    (fun total h => if h.relayState then total + h.dutyCycle else total)
    (if st.ovenRelayState then (if st.ovenSetpoint ≥ 550 then 40 else 30) else 0)

/-- The function `getTotalPowerWatts` of lines 46-57. -/
def getTotalPowerWatts (st : State) : Int :=
  st.heaters.foldl
    (fun total h => if h.relayState then total + h.dutyCycle * wattsPerDutyUnit else total)
    (if st.ovenRelayState then 0 + (if st.ovenSetpoint ≥ 550 then 3000 else 2585) else 0)

/-- The function `calculatePowerSplit` of lines 65-75. -/
def calculatePowerSplit (requestedWatts : Int) : PowerSplit :=
  if requestedWatts ≤ maxGridWatts then
    { gridWatts := requestedWatts, batteryWatts := 0 }
  else
    { gridWatts := maxGridWatts,
      batteryWatts := min (requestedWatts - maxGridWatts) maxBatteryWatts }

/-- The flag `overload` of line 294, as a function of the requested watts. -/
def overload (totalRequestedWatts : Int) : Bool :=
  decide ((calculatePowerSplit totalRequestedWatts).gridWatts
    + (calculatePowerSplit totalRequestedWatts).batteryWatts < totalRequestedWatts)

/-- Power management, lines 289-297. -/
def powerManagement (st : State) : State :=
  { st with powerConstraintActive := overload (getTotalPowerWatts st) }

/-! ## Per-tick stages of `loop()` (lines 152-312) -/

/-- Cycle position, lines 155-160: returns the new `cycleStartTime` and the
local `cycleTime`. -/
def cyclePosition (cycleStartTime now : Nat) : Nat × Nat :=
  if usub now cycleStartTime > cycleDuration then (now, 0)
  else (cycleStartTime, usub now cycleStartTime)

/-- Array read `readings[i]`.  An index outside the array is undefined
behaviour in the source; the model reads `0` there. -/
def readSlot (readings : List Int) (i : Int) : Int :=
  if 0 ≤ i then readings.getD i.toNat 0 else 0

/-- Array write `readings[i] = v`.  An index outside the array is undefined
behaviour in the source; the model ignores such a write. -/
def writeSlot (readings : List Int) (i : Int) (v : Int) : List Int :=
  if 0 ≤ i then readings.set i.toNat v else readings

/-- The four ring-buffer statements shared by lines 176-179 (burner) and
239-242 (oven): returns the new buffer, the new sum and the new cursor. -/
def ringUpdate (readings : List Int) (readIndex total sample : Int) :
    List Int × Int × Int :=
  let total1 := total - readSlot readings readIndex
  let readings1 := writeSlot readings readIndex sample
  let total2 := total1 + readSlot readings1 readIndex
  (readings1, total2, (readIndex + 1).tmod numReadings)

/-- Burner smoothing, lines 176-180. -/
def smoothing (h : HeaterUnit) (sample : Int) : HeaterUnit :=
  let r := ringUpdate h.readings h.readIndex h.total sample
  { h with readings := r.1, total := r.2.1, readIndex := r.2.2,
           adcValue := r.2.1.tdiv numReadings }

/-- The hysteresis decision of lines 185-190: the value of `newDutyCycle`
from `lastDutyCycle` and `rawDutyCycle`. -/
def newDutyCycle (lastDutyCycle rawDutyCycle : Int) : Int :=
  if rawDutyCycle > lastDutyCycle + hysteresisMargin then rawDutyCycle
  else if rawDutyCycle < lastDutyCycle - hysteresisMargin then rawDutyCycle
  else lastDutyCycle

/-- Duty cycle with hysteresis, lines 184-192. -/
def dutyStage (h : HeaterUnit) : HeaterUnit :=
  let rawDutyCycle := map h.adcValue 0 4095 0 30
  { h with dutyCycle := newDutyCycle h.lastDutyCycle rawDutyCycle,
           lastDutyCycle := newDutyCycle h.lastDutyCycle rawDutyCycle }

/-- The local `allowBurner` of lines 195-202. -/
def allowBurner (powerConstraintActive ovenRelayState anyBurnerOn : Bool) : Bool :=
  if powerConstraintActive then
    (if ovenRelayState then false else if anyBurnerOn then false else true)
  else true

/-- The local `shouldBeOn` of line 205: `cycleTime < dutyCycle * (cycleDuration / 30)`
evaluated in `unsigned long`. -/
def shouldBeOn (cycleTime : Nat) (dutyCycle : Int) : Bool :=
  decide (cycleTime < (toULong dutyCycle * (cycleDuration / 30)) % ulongModulus)

/-- Burner relay state, lines 205-210. -/
def relayStage (h : HeaterUnit) (cycleTime now : Nat) (gpio : Gpio) : HeaterUnit × Gpio :=
  if (shouldBeOn cycleTime h.dutyCycle != h.relayState)
      && decide (usub now h.lastRelayChangeTime > debounceDelay) then
    ({ h with relayState := shouldBeOn cycleTime h.dutyCycle, lastRelayChangeTime := now },
     digitalWrite gpio h.relayPin (shouldBeOn cycleTime h.dutyCycle))
  else (h, gpio)

/-- The body of the burner loop for one heater, lines 173-214.  The value of
`allowBurner` is computed and never read afterwards. -/
def burnerBody (inp : Inputs) (cycleTime : Nat) (powerConstraintActive ovenRelayState : Bool)
    (h : HeaterUnit) (anyBurnerOn : Bool) (gpio : Gpio) : HeaterUnit × Bool × Gpio :=
  let h1 := dutyStage (smoothing h (inp.analogRead h.adcPin))
  let _allowBurner := allowBurner powerConstraintActive ovenRelayState anyBurnerOn
  let r := relayStage h1 cycleTime inp.millis gpio
  (r.1, (if r.1.relayState then true else anyBurnerOn), r.2)

/-- The burner loop `for (int i = 0; i < numHeaters; i++)`, lines 172-229,
threading `anyBurnerOn` and the pin writes through the heaters in order. -/
def burnerLoop (inp : Inputs) (cycleTime : Nat) (powerConstraintActive ovenRelayState : Bool) :
    List HeaterUnit → Bool → Gpio → List HeaterUnit × Bool × Gpio
  | [], anyBurnerOn, gpio => ([], anyBurnerOn, gpio)
  | h :: rest, anyBurnerOn, gpio =>
    let b := burnerBody inp cycleTime powerConstraintActive ovenRelayState h anyBurnerOn gpio
    let r := burnerLoop inp cycleTime powerConstraintActive ovenRelayState rest b.2.1 b.2.2
    (b.1 :: r.1, r.2.1, r.2.2)

/-- Oven setpoint, lines 232-236. -/
def ovenSetpointStage (st : State) (potValue : Int) : State :=
  { st with ovenSetpoint := map potValue 0 4095 0 ((550 : Int).tdiv 25) * 25 }

/-- Oven temperature sensor, lines 239-246. -/
def ovenSmoothing (st : State) (sample : Int) : State :=
  let r := ringUpdate st.ovenReadings st.ovenReadIndex st.ovenTotal sample
  { st with ovenReadings := r.1, ovenTotal := r.2.1, ovenReadIndex := r.2.2,
            ovenAdcValue := r.2.1.tdiv numReadings,
            ovenTempF := map (r.2.1.tdiv numReadings) 0 4095 0 550 }

/-- The three branches of the oven control. -/
inductive OvenMode where
  | Off
  | Bake
  | Broil
deriving DecidableEq

/-- Branch selection of lines 249, 259 and 269. -/
def ovenMode (ovenSetpoint : Int) : OvenMode :=
  if ovenSetpoint ≥ 550 then OvenMode.Broil
  else if ovenSetpoint = 0 then OvenMode.Off
  else OvenMode.Bake

/-- The local `shouldBeOn` of line 272 (bake branch). -/
def ovenShouldBeOn (ovenTempF ovenSetpoint : Int) : Bool :=
  decide (ovenTempF < ovenSetpoint - hysteresisMargin)

/-- Oven control, lines 249-287. -/
def ovenControl (st : State) (now : Nat) : State :=
  match ovenMode st.ovenSetpoint with
  | OvenMode.Broil =>
    { st with
      gpio := digitalWrite (digitalWrite st.gpio ovenBroilRelayPin true) ovenBakeRelayPin true,
      ovenRelayState := true }
  | OvenMode.Off =>
    { st with
      gpio := digitalWrite (digitalWrite st.gpio ovenBroilRelayPin false) ovenBakeRelayPin false,
      ovenRelayState := false }
  | OvenMode.Bake =>
    if (ovenShouldBeOn st.ovenTempF st.ovenSetpoint != st.ovenRelayState)
        && decide (usub now st.ovenLastRelayChangeTime > debounceDelay) then
      { st with
        gpio := digitalWrite (digitalWrite st.gpio ovenBroilRelayPin false) ovenBakeRelayPin
          (ovenShouldBeOn st.ovenTempF st.ovenSetpoint),
        ovenRelayState := ovenShouldBeOn st.ovenTempF st.ovenSetpoint,
        ovenLastRelayChangeTime := now }
    else
      { st with gpio := digitalWrite st.gpio ovenBroilRelayPin false }

/-- Lines 307-309: the debug time stamp. -/
def debugStamp (st : State) (now : Nat) : State :=
  if usub now st.lastDebugTime > 500 then { st with lastDebugTime := now } else st

/-- Cycle position and burner control, lines 155-229. -/
def burnerStage (st : State) (inp : Inputs) : State :=
  let c := cyclePosition st.cycleStartTime inp.millis
  let b := burnerLoop inp c.2 st.powerConstraintActive st.ovenRelayState st.heaters false st.gpio
  { st with cycleStartTime := c.1, heaters := b.1, gpio := b.2.2 }

/-- Oven setpoint and oven temperature sensor, lines 232-246. -/
def ovenSense (st : State) (inp : Inputs) : State :=
  ovenSmoothing (ovenSetpointStage st (inp.analogRead ovenPotPin))
    (inp.analogRead ovenTempSensorPin)

/-- One run of `loop()`, lines 152-312. -/
def loop (st : State) (inp : Inputs) : State :=
  debugStamp
    (powerManagement (ovenControl (ovenSense (burnerStage st inp) inp) inp.millis))
    inp.millis

/-- The state after running `loop()` once for each element of `inps`. -/
def run (st : State) (inps : List Inputs) : State := inps.foldl loop st

/-- The state on entry to tick number `k` (counting from 0) of a run. -/
def stateAt (st : State) (inps : List Inputs) (k : Nat) : State := run st (inps.take k)

/-- The relay state of burner number `b` (`false` if there is no such burner). -/
def burnerRelay (st : State) (b : Nat) : Bool :=
  match st.heaters[b]? with
  | some h => h.relayState
  | none => false

/-- The time stamp `lastRelayChangeTime` of burner number `b` (`0` if there is
no such burner). -/
def burnerLast (st : State) (b : Nat) : Nat :=
  match st.heaters[b]? with
  | some h => h.lastRelayChangeTime
  | none => 0

/-- What the loop body does to one heater, leaving the pin writes aside. -/
def burnerUpdate (inp : Inputs) (cycleTime : Nat) (h : HeaterUnit) : HeaterUnit :=
  (relayStage (dutyStage (smoothing h (inp.analogRead h.adcPin))) cycleTime inp.millis []).1

/-- Whether tick number `k` of a run changes the relay state of burner `b`. -/
def burnerChangedAt (st : State) (inps : List Inputs) (b k : Nat) : Bool :=
  burnerRelay (stateAt st inps k) b != burnerRelay (stateAt st inps (k + 1)) b

/-- The clock value read by tick number `k` (`0` past the end of the run). -/
def clockAt (inps : List Inputs) (k : Nat) : Nat :=
  match inps[k]? with
  | some inp => inp.millis
  | none => 0

/-- Whether tick number `k` of a run changes the oven relay state. -/
def ovenChangedAt (st : State) (inps : List Inputs) (k : Nat) : Bool :=
  (stateAt st inps k).ovenRelayState != (stateAt st inps (k + 1)).ovenRelayState

/-! ## Definitions used to state the properties -/

/-- Ring-buffer invariant relative to the window `w` of the last ten samples, oldest first. -/
def RingInv (readings : List Int) (readIndex total : Int) (w : List Int) : Prop :=
  readings.length = 10 ∧ w.length = 10 ∧ 0 ≤ readIndex ∧ readIndex < 10 ∧ total = w.sum
  ∧ ∀ j : Nat, j < 10 → readings[(readIndex.toNat + j) % 10]? = w[j]?

/-- The last ten elements of the sample stream, the stream being preceded by ten zeros. -/
def window (samples : List Int) : List Int :=
  (List.replicate 10 0 ++ samples).drop samples.length

/-- The inputs of a tick: the clock value and the samples on the four analog
pins (burner 1 on pin 34, burner 2 on pin 35, oven potentiometer, oven
temperature sensor). -/
def tickInputs (now : Nat) (burner1 burner2 ovenPot ovenTemp : Int) : Inputs :=
  { millis := now,
    analogRead := fun pin =>
      if pin = 34 then burner1 else if pin = 35 then burner2
      else if pin = ovenPotPin then ovenPot
      else if pin = ovenTempSensorPin then ovenTemp else 0 }

/-- Three ticks at 2000, 2100 and 9000 ms with burner 1 held at full scale: the
duty becomes 6 at the second tick, so the relay goes on at 2100 ms and off at
9000 ms. -/
def debounceRun : List Inputs :=
  [tickInputs 2000 4095 0 0 0, tickInputs 2100 4095 0 0 0, tickInputs 9000 4095 0 0 0]

/-- Three ticks at 2000, 2100 and 2130 ms with a cold oven: the potentiometer
selects 25 degrees (Bake), then 0 (Off), then 25 degrees (Bake) again. -/
def ovenChatterRun : List Inputs :=
  [tickInputs 2000 0 0 200 0, tickInputs 2100 0 0 0 0, tickInputs 2130 0 0 200 0]

/-- Twelve ticks at 2000, 2100, ..., 3100 ms with burner 1 held at full scale:
afterwards burner 1 is at duty 30 with its relay on. -/
def fullDutyRun : List Inputs :=
  (List.range 12).map (fun k => tickInputs (2000 + 100 * k) 4095 0 0 0)

/-- Slot invariant of a ring buffer: ten slots, the cursor inside the array,
the running sum equal to the sum of the slots. -/
def SlotInv (readings : List Int) (readIndex total : Int) : Prop :=
  readings.length = 10 ∧ 0 ≤ readIndex ∧ readIndex < 10 ∧ total = readings.sum

/-- Invariant of a burner channel fed with samples of the ADC range: it reads
one of the two burner pins, its window holds values of the ADC range, and
both duty fields are in `[0, 30]`. -/
def HeaterOk (h : HeaterUnit) : Prop :=
  (h.adcPin = 34 ∨ h.adcPin = 35)
  ∧ (∃ w : List Int, RingInv h.readings h.readIndex h.total w ∧ ∀ x ∈ w, 0 ≤ x ∧ x ≤ 4095)
  ∧ 0 ≤ h.dutyCycle ∧ h.dutyCycle ≤ 30 ∧ 0 ≤ h.lastDutyCycle ∧ h.lastDutyCycle ≤ 30

/-- The reported duty `dutyCycle` of burner number `b` (`0` if there is no such
burner). -/
def burnerDuty (st : State) (b : Nat) : Int :=
  match st.heaters[b]? with
  | some h => h.dutyCycle
  | none => 0

/-- The field `lastDutyCycle` of burner number `b` (`0` if there is no such
burner). -/
def burnerLastDuty (st : State) (b : Nat) : Int :=
  match st.heaters[b]? with
  | some h => h.lastDutyCycle
  | none => 0

/-- The raw duty `map(adcValue, 0, 4095, 0, 30)` of burner number `b`: in the
state a tick leaves behind, this is the `rawDutyCycle` that tick computed
(`0` if there is no such burner). -/
def burnerRawDuty (st : State) (b : Nat) : Int :=
  match st.heaters[b]? with
  | some h => map h.adcValue 0 4095 0 30
  | none => 0

/-- Fourteen ticks at 2000, 2100, ..., 3300 ms with burner 1 held at mid-scale
(ADC 2048): the duty climbs to 13 during warm-up and the raw duty settles
at 15. -/
def steadyRun : List Inputs :=
  (List.range 14).map (fun k => tickInputs (2000 + 100 * k) 2048 0 0 0)

/-- The run `fullDutyRun` followed by twelve ticks at 3200, 3300, ..., 4300 ms
with burner 1 at ADC 3900. -/
def heldFullDutyRun : List Inputs :=
  fullDutyRun ++ (List.range 12).map (fun k => tickInputs (3200 + 100 * k) 3900 0 0 0)

/-- Two heaters with the same smoothing fields (buffer, cursor, running sum,
conditioned value). -/
def SameRing (h k : HeaterUnit) : Prop :=
  h.readings = k.readings ∧ h.readIndex = k.readIndex ∧ h.total = k.total
  ∧ h.adcValue = k.adcValue

/-! ## Power arbitration: facts -/

section PowerFacts

/-- The burner loop of `getTotalPowerWatts` adds `dutyCycle * wattsPerDutyUnit`
for the heaters whose relay is on to the running total. -/
theorem foldl_watts (l : List HeaterUnit) (a : Int) :
    l.foldl (fun total h => if h.relayState then total + h.dutyCycle * wattsPerDutyUnit
        else total) a
      = a + ((l.filter (fun h => h.relayState)).map (fun h => h.dutyCycle * 100)).sum := by
  induction l generalizing a with
  | nil => simp
  | cons h t ih =>
    simp only [List.foldl_cons, ih]
    cases hr : h.relayState
    · simp [List.filter_cons, hr]
    · simp [List.filter_cons, hr, wattsPerDutyUnit]; ring

/-- Value of `overload` in closed form. -/
theorem overload_iff (R : Int) : overload R = true ↔ R > 4500 := by
  unfold overload calculatePowerSplit maxGridWatts maxBatteryWatts
  split
  · simp; omega
  · simp only [decide_eq_true_eq]
    rcases le_total (R - 1500) 3000 with h | h
    · rw [min_eq_left h]; omega
    · rw [min_eq_right h]; omega

/-- The debug stamp leaves everything but `lastDebugTime` alone. -/
theorem debugStamp_fields (st : State) (now : Nat) :
    (debugStamp st now).heaters = st.heaters
    ∧ (debugStamp st now).ovenRelayState = st.ovenRelayState
    ∧ (debugStamp st now).ovenSetpoint = st.ovenSetpoint
    ∧ (debugStamp st now).powerConstraintActive = st.powerConstraintActive
    ∧ (debugStamp st now).gpio = st.gpio
    ∧ (debugStamp st now).ovenLastRelayChangeTime = st.ovenLastRelayChangeTime
    ∧ (debugStamp st now).cycleStartTime = st.cycleStartTime := by
  unfold debugStamp
  split <;> simp

/-- The requested watts depend only on the heaters and on the oven relay and
setpoint. -/
theorem getTotalPowerWatts_congr (s t : State) (hh : s.heaters = t.heaters)
    (hr : s.ovenRelayState = t.ovenRelayState) (hs : s.ovenSetpoint = t.ovenSetpoint) :
    getTotalPowerWatts s = getTotalPowerWatts t := by
  unfold getTotalPowerWatts
  rw [hh, hr, hs]

end PowerFacts

/-- Claim C1.  Power split conservation: for every requested wattage `R ≥ 0`
the two allocations returned by `calculatePowerSplit` add up to
`min R (1500 + 3000)`, the grid share is at most 1500, the battery share is at
most 3000, and both are non-negative. -/
theorem power_split_conservation (R : Int) (hR : 0 ≤ R) :
    (calculatePowerSplit R).gridWatts + (calculatePowerSplit R).batteryWatts
        = min R (1500 + 3000)
    ∧ (calculatePowerSplit R).gridWatts ≤ 1500
    ∧ (calculatePowerSplit R).batteryWatts ≤ 3000
    ∧ 0 ≤ (calculatePowerSplit R).gridWatts
    ∧ 0 ≤ (calculatePowerSplit R).batteryWatts := by
  unfold calculatePowerSplit maxGridWatts maxBatteryWatts
  split
  · rename_i h
    simp only
    rw [min_eq_left (by omega)]
    omega
  · rename_i h
    simp only
    rcases le_total (R - 1500) 3000 with h1 | h1
    · rw [min_eq_left h1, min_eq_left (by omega)]; omega
    · rw [min_eq_right h1, min_eq_right (by omega)]; omega

/-- Witness of C1 at a request of 2000 W. -/
theorem power_split_conservation_witness :
    (0 : Int) ≤ 2000
    ∧ (calculatePowerSplit 2000).gridWatts + (calculatePowerSplit 2000).batteryWatts
        = min 2000 (1500 + 3000) :=
  ⟨by decide, (power_split_conservation 2000 (by decide)).1⟩

/-- Claim C2.  Overload flag correctness: at the end of every tick
`powerConstraintActive` holds the overload value computed from
`getTotalPowerWatts` on the relay states the tick leaves behind, that value is
true exactly when the requested watts exceed 4500, and for every integer `R`
the comparison `gridWatts + batteryWatts < R` holds iff `R > 1500 + 3000`. -/
theorem overload_flag_correct :
    (∀ (st : State) (inp : Inputs),
        (loop st inp).powerConstraintActive = overload (getTotalPowerWatts (loop st inp))
        ∧ ((loop st inp).powerConstraintActive = true
            ↔ getTotalPowerWatts (loop st inp) > 4500))
    ∧ (∀ R : Int,
        (calculatePowerSplit R).gridWatts + (calculatePowerSplit R).batteryWatts < R
          ↔ R > 1500 + 3000) := by
  have key : ∀ (st : State) (inp : Inputs),
      (loop st inp).powerConstraintActive = overload (getTotalPowerWatts (loop st inp)) := by
    intro st inp
    unfold loop
    generalize ovenControl _ _ = st4
    obtain ⟨hh, hr, hs, hp, -, -, -⟩ := debugStamp_fields (powerManagement st4) inp.millis
    rw [hp, getTotalPowerWatts_congr _ (powerManagement st4) hh hr hs]
    rfl
  refine ⟨fun st inp => ⟨key st inp, ?_⟩, fun R => ?_⟩
  · rw [key st inp]; exact overload_iff _
  · have h := overload_iff R
    unfold overload at h
    simp only [decide_eq_true_eq] at h
    rw [h]; norm_num

/-- Claim C9.  Total requested watts: `getTotalPowerWatts` is the oven
contribution (3000 when the oven relay is on at a setpoint of 550 or more,
2585 when it is on below 550, 0 when it is off) plus `dutyCycle * 100` summed
over the burners whose relay is on; with two burners at duty 30 and on and the
oven on at setpoint 300 this is 8585, split as grid 1500 and battery 3000,
with overload raised. -/
theorem total_requested_watts :
    (∀ st : State,
      getTotalPowerWatts st
        = (if st.ovenRelayState then (if st.ovenSetpoint ≥ 550 then 3000 else 2585) else 0)
          + ((st.heaters.filter (fun h => h.relayState)).map
              (fun h => h.dutyCycle * 100)).sum)
    ∧ (∀ (st : State) (h1 h2 : HeaterUnit),
        st.heaters = [h1, h2] → h1.dutyCycle = 30 → h1.relayState = true →
        h2.dutyCycle = 30 → h2.relayState = true →
        st.ovenSetpoint = 300 → st.ovenRelayState = true →
        getTotalPowerWatts st = 8585
        ∧ calculatePowerSplit (getTotalPowerWatts st)
            = { gridWatts := 1500, batteryWatts := 3000 }
        ∧ overload (getTotalPowerWatts st) = true) := by
  have formula : ∀ st : State,
      getTotalPowerWatts st
        = (if st.ovenRelayState then (if st.ovenSetpoint ≥ 550 then 3000 else 2585) else 0)
          + ((st.heaters.filter (fun h => h.relayState)).map
              (fun h => h.dutyCycle * 100)).sum := by
    intro st
    unfold getTotalPowerWatts
    rw [foldl_watts]
    simp
  refine ⟨formula, ?_⟩
  intro st h1 h2 hh d1 r1 d2 r2 hs ho
  have ht : getTotalPowerWatts st = 8585 := by
    rw [formula, hh, ho, hs]
    simp [List.filter_cons, r1, r2, d1, d2]
  rw [ht]
  exact ⟨rfl, by decide, by decide⟩

/-! ## Duty mapping and time proportioning: facts -/

section DutyFacts

/-- For a duty in `[0, 30]` the `unsigned long` product of line 205 does not
wrap: it is `dutyCycle * 1000`. -/
theorem onWindow_eq (n : Nat) (hn : n ≤ 30) :
    (toULong (n : Int) * (cycleDuration / 30)) % ulongModulus = n * 1000 := by
  have h1 : toULong (n : Int) = n := by
    unfold toULong ulongModulus
    have : ((n : Int) % ((4294967296 : Nat) : Int)) = ((n % 4294967296 : Nat) : Int) := by
      push_cast; rfl
    rw [this, Int.toNat_ofNat]
    omega
  rw [h1]
  unfold cycleDuration ulongModulus
  omega

/-- The intended burner state for a duty in `[0, 30]`. -/
theorem shouldBeOn_nat (n : Nat) (hn : n ≤ 30) (t : Nat) :
    shouldBeOn t (n : Int) = decide (t < n * 1000) := by
  unfold shouldBeOn
  rw [onWindow_eq n hn]

end DutyFacts

/-- Claim C5.  Time-proportioning correctness: for a duty `d` in `[0, 30]` and
a cycle position `t < 30000` the intended burner state is ON iff
`t < d * 1000`; hence exactly `d * 1000` of the 30000 positions are intended
ON, and at duty 0 no position is. -/
theorem time_proportioning (d : Int) (h0 : 0 ≤ d) (h30 : d ≤ 30) :
    (∀ t : Nat, t < 30000 → (shouldBeOn t d = true ↔ (t : Int) < d * 1000))
    ∧ (((Finset.range 30000).filter (fun t => shouldBeOn t d = true)).card : Int) = d * 1000
    ∧ (∀ t : Nat, shouldBeOn t 0 = false) := by
  obtain ⟨n, rfl⟩ := Int.eq_ofNat_of_zero_le h0
  have hn : n ≤ 30 := by omega
  refine ⟨?_, ?_, ?_⟩
  · intro t _
    rw [shouldBeOn_nat n hn]
    simp only [decide_eq_true_eq]
    omega
  · have hset : (Finset.range 30000).filter (fun t => shouldBeOn t (n : Int) = true)
        = Finset.range (n * 1000) := by
      ext t
      simp only [Finset.mem_filter, Finset.mem_range, shouldBeOn_nat n hn, decide_eq_true_eq]
      omega
    rw [hset, Finset.card_range]
    push_cast
    rfl
  · intro t
    have h := shouldBeOn_nat 0 (by omega) t
    simp only [Nat.cast_zero] at h
    rw [h]
    simp

/-- Witness of C5 at duty 15: ON at position 14999, OFF at position 15000. -/
theorem time_proportioning_witness :
    shouldBeOn 14999 15 = true ∧ ¬ (shouldBeOn 15000 15 = true) := by
  have h := (time_proportioning 15 (by decide) (by decide)).1
  exact ⟨(h 14999 (by decide)).2 (by decide), fun hc => absurd ((h 15000 (by decide)).1 hc) (by decide)⟩

/-! ## Oven control: facts -/

section OvenFacts

/-- What the oven control leaves alone. -/
theorem ovenControl_fields (s : State) (now : Nat) :
    (ovenControl s now).ovenSetpoint = s.ovenSetpoint
    ∧ (ovenControl s now).heaters = s.heaters
    ∧ (ovenControl s now).ovenTempF = s.ovenTempF
    ∧ (ovenControl s now).cycleStartTime = s.cycleStartTime := by
  unfold ovenControl
  split
  · simp
  · simp
  · split <;> simp

/-- What the oven sensing stage computes and what it leaves alone. -/
theorem ovenSense_fields (s : State) (inp : Inputs) :
    (ovenSense s inp).ovenSetpoint = map (inp.analogRead 32) 0 4095 0 22 * 25
    ∧ (ovenSense s inp).ovenRelayState = s.ovenRelayState
    ∧ (ovenSense s inp).ovenLastRelayChangeTime = s.ovenLastRelayChangeTime
    ∧ (ovenSense s inp).heaters = s.heaters
    ∧ (ovenSense s inp).gpio = s.gpio := by
  refine ⟨?_, rfl, rfl, rfl, rfl⟩
  simp only [ovenSense, ovenSmoothing, ovenSetpointStage, ovenPotPin]
  rfl

/-- The oven part of the state after a tick is the one the oven control
produces. -/
theorem loop_oven (st : State) (inp : Inputs) :
    (loop st inp).ovenSetpoint = map (inp.analogRead 32) 0 4095 0 22 * 25
    ∧ (loop st inp).ovenRelayState
        = (ovenControl (ovenSense (burnerStage st inp) inp) inp.millis).ovenRelayState
    ∧ (loop st inp).gpio
        = (ovenControl (ovenSense (burnerStage st inp) inp) inp.millis).gpio
    ∧ (loop st inp).ovenLastRelayChangeTime
        = (ovenControl (ovenSense (burnerStage st inp) inp) inp.millis).ovenLastRelayChangeTime := by
  unfold loop
  obtain ⟨-, hr, hs, -, hg, hl, -⟩ :=
    debugStamp_fields
      (powerManagement (ovenControl (ovenSense (burnerStage st inp) inp) inp.millis)) inp.millis
  rw [hr, hs, hg, hl]
  refine ⟨?_, rfl, rfl, rfl⟩
  show (ovenControl (ovenSense (burnerStage st inp) inp) inp.millis).ovenSetpoint = _
  rw [(ovenControl_fields _ _).1, (ovenSense_fields _ _).1]

end OvenFacts

/-- Claim C10.  Oven mode is a total function of the setpoint with forced
outputs in Off and Broil: setpoint 0 selects Off, a setpoint from 1 to 549
selects Bake, a setpoint of 550 or more selects Broil (in particular on every
quantized setpoint `25 * k`, `k ≤ 22`); the setpoint of a tick is computed
from the potentiometer alone; after a Broil tick the oven relay state is true
and both oven outputs are HIGH, and after an Off tick the relay state is false
and both outputs are LOW, whatever the previous state and the other inputs. -/
theorem oven_mode_total :
    (∀ sp : Int,
        (sp = 0 → ovenMode sp = OvenMode.Off)
        ∧ (1 ≤ sp ∧ sp < 550 → ovenMode sp = OvenMode.Bake)
        ∧ (550 ≤ sp → ovenMode sp = OvenMode.Broil))
    ∧ (∀ k : Nat, k ≤ 22 →
        ovenMode (25 * (k : Int))
          = if k = 0 then OvenMode.Off else if k < 22 then OvenMode.Bake else OvenMode.Broil)
    ∧ (∀ (st : State) (inp : Inputs),
        (loop st inp).ovenSetpoint = map (inp.analogRead ovenPotPin) 0 4095 0 22 * 25
        ∧ (ovenMode (loop st inp).ovenSetpoint = OvenMode.Broil →
            (loop st inp).ovenRelayState = true
            ∧ pinLevel (loop st inp).gpio ovenBakeRelayPin = true
            ∧ pinLevel (loop st inp).gpio ovenBroilRelayPin = true)
        ∧ (ovenMode (loop st inp).ovenSetpoint = OvenMode.Off →
            (loop st inp).ovenRelayState = false
            ∧ pinLevel (loop st inp).gpio ovenBakeRelayPin = false
            ∧ pinLevel (loop st inp).gpio ovenBroilRelayPin = false)) := by
  refine ⟨fun sp => ⟨?_, ?_, ?_⟩, ?_, ?_⟩
  · intro h; subst h; rfl
  · intro h
    unfold ovenMode
    rw [if_neg (by omega), if_neg (by omega)]
  · intro h
    unfold ovenMode
    rw [if_pos (by omega)]
  · intro k hk
    unfold ovenMode
    by_cases h0 : k = 0
    · subst h0; rfl
    · by_cases h22 : k < 22
      · rw [if_neg (by omega), if_neg (by omega), if_neg h0, if_pos h22]
      · rw [if_pos (by omega), if_neg h0, if_neg h22]
  · intro st inp
    obtain ⟨hsp, hr, hg, -⟩ := loop_oven st inp
    have hsp3 : (ovenSense (burnerStage st inp) inp).ovenSetpoint
        = (loop st inp).ovenSetpoint := by
      rw [hsp, (ovenSense_fields _ _).1]
    refine ⟨hsp, ?_, ?_⟩
    · intro hm
      rw [hr, hg]
      unfold ovenControl
      rw [hsp3, hm]
      simp [pinLevel, digitalWrite, ovenBakeRelayPin, ovenBroilRelayPin]
    · intro hm
      rw [hr, hg]
      unfold ovenControl
      rw [hsp3, hm]
      simp [pinLevel, digitalWrite, ovenBakeRelayPin, ovenBroilRelayPin]

/-! ## Signal conditioning: facts -/

section RingFacts

/-- One ring-buffer update slides the window by one sample. -/
theorem ringUpdate_inv (rd : List Int) (idx tot : Int) (w : List Int) (s : Int)
    (h : RingInv rd idx tot w) :
    RingInv (ringUpdate rd idx tot s).1 (ringUpdate rd idx tot s).2.2
      (ringUpdate rd idx tot s).2.1 (w.tail ++ [s]) := by
  obtain ⟨hl, hw, h0, h10, ht, hp⟩ := h
  obtain ⟨i, rfl⟩ := Int.eq_ofNat_of_zero_le h0
  have hi : i < 10 := by omega
  simp only [Int.toNat_ofNat] at hp
  match w, hw, ht, hp with
  | [], hw, _, _ => simp at hw
  | a :: wt, hw, ht, hp =>
    have hwt : wt.length = 9 := by simpa using hw
    have hmod : ((i : Int) + 1).tmod 10 = ((i : Int) + 1) % 10 :=
      Int.tmod_eq_emod (by omega) (by omega)
    have hidx : (((i : Int) + 1).tmod 10).toNat = (i + 1) % 10 := by
      rw [hmod]; omega
    have hlo : 0 ≤ ((i : Int) + 1).tmod 10 := by rw [hmod]; omega
    have hhi : ((i : Int) + 1).tmod 10 < 10 := by rw [hmod]; omega
    have hrd : rd[i]? = some a := by
      have := hp 0 (by omega)
      simpa [Nat.mod_eq_of_lt hi] using this
    unfold ringUpdate readSlot writeSlot numReadings
    simp only [h0, if_true, List.tail_cons, Int.toNat_ofNat]
    refine ⟨by simp [hl], by simp [hwt], hlo, hhi, ?_, ?_⟩
    · simp only [List.getD_eq_getElem?_getD, hrd, Option.getD_some,
        List.getElem?_set_self (show i < rd.length by omega), List.sum_append, List.sum_cons,
        List.sum_nil, ht]
      ring
    · intro j hj
      rw [hidx]
      by_cases hj9 : j = 9
      · subst hj9
        have e : ((i + 1) % 10 + 9) % 10 = i := by omega
        rw [e, List.getElem?_set_self (by omega),
          List.getElem?_append_right (by omega)]
        simp [hwt]
      · have hne : i ≠ ((i + 1) % 10 + j) % 10 := by omega
        rw [List.getElem?_set_ne hne, List.getElem?_append_left (by omega)]
        have e : ((i + 1) % 10 + j) % 10 = (i + (j + 1)) % 10 := by omega
        rw [e, hp (j + 1) (by omega)]
        simp

/-- Before any sample the window is the ten initial zeros. -/
theorem window_nil : window [] = List.replicate 10 0 := by
  simp [window]

/-- The window always holds ten values. -/
theorem window_length (ss : List Int) : (window ss).length = 10 := by
  unfold window
  rw [List.length_drop, List.length_append, List.length_replicate]
  omega

/-- A new sample enters the window at the end and the oldest value leaves. -/
theorem window_concat (ss : List Int) (s : Int) :
    window (ss ++ [s]) = (window ss).tail ++ [s] := by
  have hne : window ss ≠ [] := by
    intro h
    have := window_length ss
    rw [h] at this
    simp at this
  have hne2 : List.drop ss.length (List.replicate 10 0 ++ ss) ≠ [] := hne
  unfold window
  rw [List.length_append, List.length_singleton, ← List.append_assoc, ← List.tail_drop,
    List.drop_append_of_le_length (by rw [List.length_append, List.length_replicate]; omega),
    List.tail_append_of_ne_nil hne2]

/-- After ten samples or more the window is the last ten samples. -/
theorem window_full (ss : List Int) (h : 10 ≤ ss.length) :
    window ss = ss.drop (ss.length - 10) := by
  unfold window
  rw [List.drop_append_eq_append_drop, List.drop_eq_nil_of_le (by simpa using h)]
  simp

/-- Any state type whose step is `ringUpdate` followed by the division of line 180
or 244 keeps the ring invariant along a run from the zero buffer. -/
theorem ring_run {σ : Type} (step : σ → Int → σ) (rd : σ → List Int) (idx tot adc : σ → Int)
    (hstep : ∀ x s, rd (step x s) = (ringUpdate (rd x) (idx x) (tot x) s).1
      ∧ tot (step x s) = (ringUpdate (rd x) (idx x) (tot x) s).2.1
      ∧ idx (step x s) = (ringUpdate (rd x) (idx x) (tot x) s).2.2
      ∧ adc (step x s) = (ringUpdate (rd x) (idx x) (tot x) s).2.1.tdiv 10)
    (x0 : σ) (hrd : rd x0 = List.replicate 10 0) (hidx : idx x0 = 0) (htot : tot x0 = 0)
    (ss : List Int) :
    RingInv (rd (ss.foldl step x0)) (idx (ss.foldl step x0)) (tot (ss.foldl step x0)) (window ss)
    ∧ (ss ≠ [] → adc (ss.foldl step x0) = (window ss).sum.tdiv 10) := by
  induction ss using List.reverseRecOn with
  | nil =>
    refine ⟨?_, fun h => absurd rfl h⟩
    rw [window_nil]
    simp only [List.foldl_nil, hrd, hidx, htot]
    refine ⟨by simp, by simp, by omega, by omega, by simp, fun j hj => ?_⟩
    simp [Nat.mod_eq_of_lt hj]
  | append_singleton l a ih =>
    have hinv := ringUpdate_inv _ _ _ _ a ih.1
    obtain ⟨h1, h2, h3, h4⟩ := hstep (l.foldl step x0) a
    rw [List.foldl_append, List.foldl_cons, List.foldl_nil, window_concat, h1, h2, h3, h4]
    refine ⟨hinv, fun _ => ?_⟩
    rw [hinv.2.2.2.2.1]

end RingFacts

/-- Claim C3.  Moving average correctness: from the zero-initialised channel,
after `k ≥ 10` smoothing updates the conditioned value is the sum of the last
ten samples divided by 10 with integer division, for the burner channel
(`adcValue`) and for the oven channel (`ovenAdcValue`) alike. -/
theorem moving_average_correct (samples : List Int) (hk : 10 ≤ samples.length) :
    (∀ h : HeaterUnit, h.readings = List.replicate 10 0 → h.readIndex = 0 → h.total = 0 →
        (samples.foldl smoothing h).adcValue
          = (samples.drop (samples.length - 10)).sum.tdiv 10)
    ∧ (∀ st : State, st.ovenReadings = List.replicate 10 0 → st.ovenReadIndex = 0 →
        st.ovenTotal = 0 →
        (samples.foldl ovenSmoothing st).ovenAdcValue
          = (samples.drop (samples.length - 10)).sum.tdiv 10) := by
  have hne : samples ≠ [] := by
    intro h
    rw [h] at hk
    simp at hk
  constructor
  · intro h h1 h2 h3
    have := (ring_run smoothing (fun x => x.readings) (fun x => x.readIndex) (fun x => x.total)
      (fun x => x.adcValue) (fun _ _ => ⟨rfl, rfl, rfl, rfl⟩) h h1 h2 h3 samples).2 hne
    rw [window_full samples hk] at this
    exact this
  · intro st h1 h2 h3
    have := (ring_run ovenSmoothing (fun x => x.ovenReadings) (fun x => x.ovenReadIndex)
      (fun x => x.ovenTotal) (fun x => x.ovenAdcValue) (fun _ _ => ⟨rfl, rfl, rfl, rfl⟩)
      st h1 h2 h3 samples).2 hne
    rw [window_full samples hk] at this
    exact this

/-- Witness of C3: eleven samples, the first of which has left the window. -/
theorem moving_average_correct_witness :
    10 ≤ [4000, 1, 2, 3, 4, 5, 6, 7, 8, 9, (10 : Int)].length
    ∧ ([4000, 1, 2, 3, 4, 5, 6, 7, 8, 9, (10 : Int)].foldl smoothing
        (HeaterUnit.ctor "Burner 1" 34 12)).adcValue = 5 :=
  ⟨by decide,
   (moving_average_correct [4000, 1, 2, 3, 4, 5, 6, 7, 8, 9, 10] (by decide)).1
     (HeaterUnit.ctor "Burner 1" 34 12) rfl rfl rfl⟩

/-! ## Relay scheduling: facts -/

section RelayFacts

/-- The heater returned by the relay stage does not depend on the pin record. -/
theorem relayStage_fst (h : HeaterUnit) (ct now : Nat) (g : Gpio) :
    (relayStage h ct now g).1 = (relayStage h ct now []).1 := by
  unfold relayStage
  split <;> rfl

/-- The burner loop updates every heater on its own: neither `anyBurnerOn` nor
the power-constraint flag reaches the heater state. -/
theorem burnerLoop_heaters (inp : Inputs) (ct : Nat) (pca ors : Bool) (hs : List HeaterUnit)
    (any : Bool) (g : Gpio) :
    (burnerLoop inp ct pca ors hs any g).1 = hs.map (burnerUpdate inp ct) := by
  induction hs generalizing any g with
  | nil => rfl
  | cons h t ih =>
    simp only [burnerLoop, List.map_cons, ih]
    congr 1
    simp only [burnerBody, burnerUpdate]
    exact relayStage_fst _ _ _ _

/-- The heaters after a tick. -/
theorem loop_heaters (st : State) (inp : Inputs) :
    (loop st inp).heaters
      = st.heaters.map (burnerUpdate inp (cyclePosition st.cycleStartTime inp.millis).2) := by
  unfold loop
  rw [(debugStamp_fields _ _).1]
  show (ovenControl (ovenSense (burnerStage st inp) inp) inp.millis).heaters = _
  rw [(ovenControl_fields _ _).2.1, (ovenSense_fields _ _).2.2.2.1]
  exact burnerLoop_heaters _ _ _ _ _ _ _

/-- A heater relay changes only past the debounce delay, and the time stamp is
rewritten exactly when the relay changes. -/
theorem burnerUpdate_relay (inp : Inputs) (ct : Nat) (h : HeaterUnit) :
    ((burnerUpdate inp ct h).relayState ≠ h.relayState →
        usub inp.millis h.lastRelayChangeTime > debounceDelay
        ∧ (burnerUpdate inp ct h).lastRelayChangeTime = inp.millis)
    ∧ ((burnerUpdate inp ct h).relayState = h.relayState →
        (burnerUpdate inp ct h).lastRelayChangeTime = h.lastRelayChangeTime) := by
  unfold burnerUpdate relayStage
  have e1 : (dutyStage (smoothing h (inp.analogRead h.adcPin))).relayState = h.relayState := rfl
  have e2 : (dutyStage (smoothing h (inp.analogRead h.adcPin))).lastRelayChangeTime
      = h.lastRelayChangeTime := rfl
  split
  · rename_i hc
    simp only [Bool.and_eq_true, bne_iff_ne, ne_eq, decide_eq_true_eq, e1, e2] at hc
    simp only [e1]
    exact ⟨fun _ => ⟨hc.2, trivial⟩, fun he => absurd he hc.1⟩
  · simp only [e1, e2]
    exact ⟨fun hne => absurd rfl hne, fun _ => trivial⟩

/-- The relay step of burner `b` over one tick. -/
theorem burner_step (st : State) (inp : Inputs) (b : Nat) :
    (burnerRelay (loop st inp) b ≠ burnerRelay st b →
        usub inp.millis (burnerLast st b) > debounceDelay
        ∧ burnerLast (loop st inp) b = inp.millis)
    ∧ (burnerRelay (loop st inp) b = burnerRelay st b →
        burnerLast (loop st inp) b = burnerLast st b) := by
  unfold burnerRelay burnerLast
  rw [loop_heaters, List.getElem?_map]
  cases hb : st.heaters[b]? with
  | none => simp
  | some h =>
    simp only [Option.map_some']
    exact burnerUpdate_relay inp _ h

/-- Tick `k` of a run leads from `stateAt k` to `stateAt (k + 1)`. -/
theorem stateAt_succ (st : State) (inps : List Inputs) (k : Nat) (hk : k < inps.length) :
    ∃ inp, inps[k]? = some inp ∧ clockAt inps k = inp.millis
      ∧ stateAt st inps (k + 1) = loop (stateAt st inps k) inp := by
  refine ⟨inps[k], List.getElem?_eq_getElem hk, ?_, ?_⟩
  · unfold clockAt
    rw [List.getElem?_eq_getElem hk]
  · unfold stateAt run
    rw [List.take_succ, List.getElem?_eq_getElem hk, List.foldl_append]
    rfl

end RelayFacts

/-- Claim C7.  Debounce invariant for burners: in every run from the initial
state whose clock values are non-decreasing (and are `unsigned long` values,
i.e. below `2 ^ 32`), with arbitrary ADC samples, any two ticks `i < j` at
which the relay state of the same burner `b` changes have clock values at
least 50 ms apart. -/
theorem burner_debounce (inps : List Inputs)
    (hmono : ∀ a c : Nat, a ≤ c → c < inps.length → clockAt inps a ≤ clockAt inps c)
    (hrange : ∀ k : Nat, k < inps.length → clockAt inps k < ulongModulus)
    (b i j : Nat) (hij : i < j) (hj : j < inps.length)
    (hci : burnerChangedAt setup inps b i = true)
    (hcj : burnerChangedAt setup inps b j = true) :
    clockAt inps i + 50 ≤ clockAt inps j := by
  -- upper bound: the time stamp never runs ahead of the clock
  have upper : ∀ k : Nat, k ≤ inps.length → ∀ m : Nat, k ≤ m → m < inps.length →
      burnerLast (stateAt setup inps k) b ≤ clockAt inps m := by
    intro k
    induction k with
    | zero =>
      intro _ m _ _
      have h0 : burnerLast (stateAt setup inps 0) b = 0 := by
        unfold burnerLast stateAt run setup heaters
        simp only [List.take_zero, List.foldl_nil]
        match b with
        | 0 => rfl
        | 1 => rfl
        | (n + 2) => rfl
      omega
    | succ k ih =>
      intro hk m hkm hm
      obtain ⟨inp, -, hclk, hst⟩ := stateAt_succ setup inps k (by omega)
      have hs := burner_step (stateAt setup inps k) inp b
      rw [hst]
      by_cases hch : burnerRelay (loop (stateAt setup inps k) inp) b
          = burnerRelay (stateAt setup inps k) b
      · rw [hs.2 hch]
        exact ih (by omega) m (by omega) hm
      · rw [(hs.1 hch).2, ← hclk]
        exact hmono k m (by omega) hm
  -- lower bound: after a change at tick `i` the time stamp is at least its clock
  have lower : ∀ k : Nat, k ≤ inps.length → i < k →
      clockAt inps i ≤ burnerLast (stateAt setup inps k) b := by
    intro k
    induction k with
    | zero => intro _ h; omega
    | succ k ih =>
      intro hk hik
      obtain ⟨inp, -, hclk, hst⟩ := stateAt_succ setup inps k (by omega)
      have hs := burner_step (stateAt setup inps k) inp b
      rw [hst]
      by_cases hch : burnerRelay (loop (stateAt setup inps k) inp) b
          = burnerRelay (stateAt setup inps k) b
      · rw [hs.2 hch]
        have hne : i ≠ k := by
          intro he
          subst he
          unfold burnerChangedAt at hci
          rw [hst, hch] at hci
          simp at hci
        exact ih (by omega) (by omega)
      · rw [(hs.1 hch).2, ← hclk]
        exact hmono i k (by omega) (by omega)
  obtain ⟨inp, -, hclk, hst⟩ := stateAt_succ setup inps j hj
  have hs := burner_step (stateAt setup inps j) inp b
  have hch : burnerRelay (loop (stateAt setup inps j) inp) b
      ≠ burnerRelay (stateAt setup inps j) b := by
    intro he
    unfold burnerChangedAt at hcj
    rw [hst, he] at hcj
    simp at hcj
  have hdeb := (hs.1 hch).1
  have hup := upper j (by omega) j (le_refl j) hj
  have hlo := lower j (by omega) hij
  have hr := hrange j hj
  rw [← hclk] at hdeb
  unfold usub debounceDelay ulongModulus at hdeb
  unfold ulongModulus at hr
  omega

/-- Witness of C7 on `debounceRun`: burner 1 changes at ticks 1 and 2, at
2100 ms and 9000 ms. -/
theorem burner_debounce_witness :
    burnerChangedAt setup debounceRun 0 1 = true
    ∧ burnerChangedAt setup debounceRun 0 2 = true
    ∧ clockAt debounceRun 1 + 50 ≤ clockAt debounceRun 2 :=
  ⟨by decide, by decide,
   burner_debounce debounceRun
     (by
       intro a c hac hc
       have hc3 : c < 3 := hc
       interval_cases c <;> interval_cases a <;> decide)
     (by
       intro k hk
       have hk3 : k < 3 := hk
       interval_cases k <;> decide)
     0 1 2 (by decide) (by decide) (by decide) (by decide)⟩

/-- Claim C8 (evaluation at the failing run).  On `ovenChatterRun` the oven
relay state changes at tick 1 (an Off tick at 2100 ms, which leaves
`ovenLastRelayChangeTime` at 2000) and again at tick 2, a Bake tick at
2130 ms: the bake-mode change comes 30 ms after the previous change of the
oven relay state. -/
theorem oven_bake_debounce_fails :
    ovenChangedAt setup ovenChatterRun 1 = true
    ∧ ovenChangedAt setup ovenChatterRun 2 = true
    ∧ ovenMode (stateAt setup ovenChatterRun 2).ovenSetpoint = OvenMode.Off
    ∧ (stateAt setup ovenChatterRun 2).ovenLastRelayChangeTime = 2000
    ∧ ovenMode (stateAt setup ovenChatterRun 3).ovenSetpoint = OvenMode.Bake
    ∧ clockAt ovenChatterRun 1 = 2100
    ∧ clockAt ovenChatterRun 2 = 2130 := by
  decide

set_option maxRecDepth 100000

/-- Claim C6 (evaluation at the failing input).  With `cycleStartTime = 0` and
a clock value of 30000 the cycle position is 30000, where the intended state
at duty 30 is OFF; in the run `fullDutyRun` followed by a tick at 30000 ms,
burner 1 is at duty 30 with its relay on before that tick and its relay is
off after it. -/
theorem full_duty_off_at_cycle_end :
    (cyclePosition 0 30000).2 = 30000
    ∧ shouldBeOn 30000 30 = false
    ∧ (run setup fullDutyRun).cycleStartTime = 0
    ∧ (run setup fullDutyRun).heaters.map (fun h => (h.dutyCycle, h.relayState))
        = [(30, true), (0, false)]
    ∧ (loop (run setup fullDutyRun) (tickInputs 30000 4095 0 0 0)).heaters.map
          (fun h => (h.dutyCycle, h.relayState))
        = [(30, false), (0, false)] := by
  decide

/-! ## Cycle position, setpoint and gating: facts -/

section MapFacts

/-- The raw duty of a non-negative conditioned value: `x * 30 / 4095`. -/
theorem map_duty (x : Int) (hx : 0 ≤ x) : map x 0 4095 0 30 = x * 30 / 4095 := by
  unfold map
  simp only [sub_zero, add_zero]
  exact Int.tdiv_eq_ediv (by omega) (by omega)

/-- The setpoint step of a non-negative potentiometer reading: `x * 22 / 4095`. -/
theorem map_step (x : Int) (hx : 0 ≤ x) : map x 0 4095 0 22 = x * 22 / 4095 := by
  unfold map
  simp only [sub_zero, add_zero]
  exact Int.tdiv_eq_ediv (by omega) (by omega)

end MapFacts

/-- Claim C17.  Cycle position reset: with `e = now - cycleStartTime` in
`unsigned long`, if `e > 30000` the cycle start becomes `now` and the cycle
position is 0, otherwise the cycle start is unchanged and the position is `e`;
the position is always at most 30000; a tick stores that cycle start and
hands that position to every burner. -/
theorem cycle_position_reset (start now : Nat) :
    (usub now start > 30000 → cyclePosition start now = (now, 0))
    ∧ (usub now start ≤ 30000 → cyclePosition start now = (start, usub now start))
    ∧ (cyclePosition start now).2 ≤ 30000
    ∧ (∀ (st : State) (inp : Inputs),
        (loop st inp).cycleStartTime = (cyclePosition st.cycleStartTime inp.millis).1
        ∧ (loop st inp).heaters = st.heaters.map
            (burnerUpdate inp (cyclePosition st.cycleStartTime inp.millis).2)) := by
  refine ⟨?_, ?_, ?_, ?_⟩
  · intro h
    unfold cyclePosition cycleDuration
    rw [if_pos h]
  · intro h
    unfold cyclePosition cycleDuration
    rw [if_neg (by omega)]
  · unfold cyclePosition cycleDuration
    split
    · exact Nat.zero_le _
    · simp only; omega
  · intro st inp
    refine ⟨?_, loop_heaters st inp⟩
    unfold loop
    rw [(debugStamp_fields _ _).2.2.2.2.2.2]
    show (ovenControl (ovenSense (burnerStage st inp) inp) inp.millis).cycleStartTime = _
    rw [(ovenControl_fields _ _).2.2.2]
    rfl

/-- Claim C12.  Setpoint quantization: for a potentiometer reading in
`[0, 4095]` the setpoint `map(potValue, 0, 4095, 0, 22) * 25` is a multiple of
25 between 0 and 550, it is non-decreasing in the reading, and it is the
setpoint a tick stores. -/
theorem setpoint_quantization (potValue : Int) (h0 : 0 ≤ potValue) (h1 : potValue ≤ 4095) :
    (∃ k : Int, 0 ≤ k ∧ k ≤ 22 ∧ map potValue 0 4095 0 22 * 25 = 25 * k)
    ∧ 0 ≤ map potValue 0 4095 0 22 * 25
    ∧ map potValue 0 4095 0 22 * 25 ≤ 550
    ∧ (∀ q : Int, potValue ≤ q → q ≤ 4095 →
        map potValue 0 4095 0 22 * 25 ≤ map q 0 4095 0 22 * 25)
    ∧ (∀ (st : State) (inp : Inputs), inp.analogRead ovenPotPin = potValue →
        (loop st inp).ovenSetpoint = map potValue 0 4095 0 22 * 25) := by
  rw [map_step potValue h0]
  refine ⟨⟨potValue * 22 / 4095, by omega, by omega, by ring⟩, by omega, by omega, ?_, ?_⟩
  · intro q hq _
    rw [map_step q (by omega)]
    omega
  · intro st inp hp
    rw [(loop_oven st inp).1, ← map_step potValue h0, ← hp]
    rfl

/-- Witness of C12 at mid-scale: reading 2048 gives setpoint 275. -/
theorem setpoint_quantization_witness :
    (0 : Int) ≤ 2048 ∧ (2048 : Int) ≤ 4095
    ∧ (0 : Int) ≤ map 2048 0 4095 0 22 * 25 ∧ map 2048 0 4095 0 22 * 25 ≤ 550 :=
  ⟨by decide, by decide,
   (setpoint_quantization 2048 (by decide) (by decide)).2.1,
   (setpoint_quantization 2048 (by decide) (by decide)).2.2.1⟩

section GateFacts

/-- The debug stamp leaves the oven temperature alone. -/
theorem debugStamp_ovenTempF (st : State) (now : Nat) :
    (debugStamp st now).ovenTempF = st.ovenTempF := by
  unfold debugStamp
  split <;> rfl

/-- The oven temperature after a tick is the one the sensing stage computed. -/
theorem loop_ovenTempF (st : State) (inp : Inputs) :
    (loop st inp).ovenTempF = (ovenSense (burnerStage st inp) inp).ovenTempF := by
  unfold loop
  rw [debugStamp_ovenTempF]
  show (ovenControl (ovenSense (burnerStage st inp) inp) inp.millis).ovenTempF = _
  exact (ovenControl_fields _ _).2.2.1

/-- The burner loop does not read the power-constraint flag. -/
theorem burnerLoop_flag (inp : Inputs) (ct : Nat) (p q ors : Bool) (hs : List HeaterUnit)
    (any : Bool) (g : Gpio) :
    burnerLoop inp ct p ors hs any g = burnerLoop inp ct q ors hs any g := by
  induction hs generalizing any g with
  | nil => rfl
  | cons h t ih =>
    simp only [burnerLoop, burnerBody]
    rw [ih]

/-- The oven control commutes with a change of the power-constraint flag. -/
theorem ovenControl_flag (s : State) (p : Bool) (now : Nat) :
    ovenControl { s with powerConstraintActive := p } now
      = { ovenControl s now with powerConstraintActive := p } := by
  unfold ovenControl
  simp only
  split
  · rfl
  · rfl
  · split <;> rfl

end GateFacts

/-- Claim C15.  The power-constraint gate is dead logic: a tick started from a
state that differs only in `powerConstraintActive` ends, for the same clock
and ADC inputs, in the same state (every burner field, every pin write and the
whole oven state included); the loop body for one burner gives the same
result for both values of the flag; and the heaters after a tick are obtained
by `burnerUpdate`, which reads only the cycle position, the clock and the
heater itself. -/
theorem constraint_gate_dead (st : State) (p : Bool) (inp : Inputs) :
    loop { st with powerConstraintActive := p } inp = loop st inp
    ∧ (∀ (ct : Nat) (ors any : Bool) (h : HeaterUnit) (g : Gpio),
        burnerBody inp ct true ors h any g = burnerBody inp ct false ors h any g)
    ∧ (loop st inp).heaters
        = st.heaters.map (burnerUpdate inp (cyclePosition st.cycleStartTime inp.millis).2) := by
  refine ⟨?_, fun _ _ _ _ _ => rfl, loop_heaters st inp⟩
  have hb : burnerStage { st with powerConstraintActive := p } inp
      = { burnerStage st inp with powerConstraintActive := p } := by
    simp only [burnerStage]
    rw [burnerLoop_flag inp _ p st.powerConstraintActive]
  have hs : ovenSense { burnerStage st inp with powerConstraintActive := p } inp
      = { ovenSense (burnerStage st inp) inp with powerConstraintActive := p } := rfl
  unfold loop
  rw [hb, hs, ovenControl_flag]
  rfl

/-- Claim C18.  Zero input does not always give zero duty: for a previous duty
`p` in `[0, 30]` and a raw duty of 0 (the raw duty of conditioned value 0) the
new duty is 0 exactly when `p = 0` or `p ≥ 3` and is `p` when `p` is 1 or 2;
from a held duty of 1 or 2 no conditioned value of the ADC range whose raw duty
is lower changes the duty; and at such a duty the burner is intended ON
exactly on the first `p * 1000` positions of the cycle. -/
theorem zero_input_duty (p : Int) (h0 : 0 ≤ p) (h30 : p ≤ 30) :
    map 0 0 4095 0 30 = 0
    ∧ (newDutyCycle p 0 = 0 ↔ (p = 0 ∨ 3 ≤ p))
    ∧ ((p = 1 ∨ p = 2) → newDutyCycle p 0 = p)
    ∧ ((p = 1 ∨ p = 2) → ∀ v : Int, 0 ≤ v → map v 0 4095 0 30 < p →
        newDutyCycle p (map v 0 4095 0 30) = p)
    ∧ (∀ h : HeaterUnit, h.adcValue = 0 → h.lastDutyCycle = p →
        (dutyStage h).dutyCycle = newDutyCycle p 0)
    ∧ (∀ t : Nat, shouldBeOn t p = true ↔ (t : Int) < p * 1000) := by
  have hm : map 0 0 4095 0 30 = 0 := by decide
  refine ⟨hm, ?_, ?_, ?_, ?_, ?_⟩
  · unfold newDutyCycle hysteresisMargin
    rw [if_neg (by omega)]
    constructor
    · intro h
      by_cases h3 : (0 : Int) < p - 2
      · right; omega
      · rw [if_neg h3] at h; left; exact h
    · intro h
      rcases h with h | h
      · subst h; rfl
      · rw [if_pos (by omega)]
  · intro h
    unfold newDutyCycle hysteresisMargin
    rw [if_neg (by omega), if_neg (by omega)]
  · intro h v hv hlt
    have hr := map_duty v hv
    unfold newDutyCycle hysteresisMargin
    rw [if_neg (by omega), if_neg (by omega)]
  · intro h ha hl
    unfold dutyStage
    simp only [ha, hl, hm]
  · intro t
    obtain ⟨n, rfl⟩ := Int.eq_ofNat_of_zero_le h0
    rw [shouldBeOn_nat n (by omega)]
    simp only [decide_eq_true_eq]
    omega

/-- Witness of C18 at a held duty of 2. -/
theorem zero_input_duty_witness :
    (0 : Int) ≤ 2 ∧ (2 : Int) ≤ 30 ∧ newDutyCycle 2 0 = 2 :=
  ⟨by decide, by decide,
   (zero_input_duty 2 (by decide) (by decide)).2.2.1 (Or.inr rfl)⟩

/-- Claim C11.  Bake decision: in a tick whose setpoint is strictly between 0
and 550 the broil output is LOW afterwards, the intended bake state is ON
exactly when `ovenTempF < ovenSetpoint - 2`, and the oven relay state becomes
the intended state, with `ovenLastRelayChangeTime` set to the clock and the
bake output written, when the intended state differs from the current relay
state and `now - ovenLastRelayChangeTime > 50`; otherwise the relay state and
the time stamp are unchanged and the only oven write is the broil output. -/
theorem bake_decision (st : State) (inp : Inputs)
    (hlo : 0 < (loop st inp).ovenSetpoint) (hhi : (loop st inp).ovenSetpoint < 550) :
    ovenMode (loop st inp).ovenSetpoint = OvenMode.Bake
    ∧ pinLevel (loop st inp).gpio ovenBroilRelayPin = false
    ∧ (ovenShouldBeOn (loop st inp).ovenTempF (loop st inp).ovenSetpoint = true
        ↔ (loop st inp).ovenTempF < (loop st inp).ovenSetpoint - 2)
    ∧ ((ovenShouldBeOn (loop st inp).ovenTempF (loop st inp).ovenSetpoint ≠ st.ovenRelayState
          ∧ usub inp.millis st.ovenLastRelayChangeTime > 50) →
        (loop st inp).ovenRelayState
            = ovenShouldBeOn (loop st inp).ovenTempF (loop st inp).ovenSetpoint
        ∧ (loop st inp).ovenLastRelayChangeTime = inp.millis
        ∧ pinLevel (loop st inp).gpio ovenBakeRelayPin
            = ovenShouldBeOn (loop st inp).ovenTempF (loop st inp).ovenSetpoint)
    ∧ (¬ (ovenShouldBeOn (loop st inp).ovenTempF (loop st inp).ovenSetpoint ≠ st.ovenRelayState
          ∧ usub inp.millis st.ovenLastRelayChangeTime > 50) →
        (loop st inp).ovenRelayState = st.ovenRelayState
        ∧ (loop st inp).ovenLastRelayChangeTime = st.ovenLastRelayChangeTime
        ∧ (loop st inp).gpio
            = digitalWrite (burnerStage st inp).gpio ovenBroilRelayPin false) := by
  obtain ⟨hsp, hr, hg, hl⟩ := loop_oven st inp
  have ht := loop_ovenTempF st inp
  obtain ⟨hsp3, hr3, hl3, -, hg3⟩ := ovenSense_fields (burnerStage st inp) inp
  have hspeq : (ovenSense (burnerStage st inp) inp).ovenSetpoint
      = (loop st inp).ovenSetpoint := by rw [hsp, hsp3]
  have hrel : (ovenSense (burnerStage st inp) inp).ovenRelayState = st.ovenRelayState := hr3
  have hlast : (ovenSense (burnerStage st inp) inp).ovenLastRelayChangeTime
      = st.ovenLastRelayChangeTime := hl3
  have hmode : ovenMode (loop st inp).ovenSetpoint = OvenMode.Bake := by
    unfold ovenMode
    rw [if_neg (by omega), if_neg (by omega)]
  refine ⟨hmode, ?_, ?_, ?_, ?_⟩
  · rw [hg]
    unfold ovenControl
    rw [hspeq, hmode]
    simp only
    split <;> simp [pinLevel, digitalWrite, ovenBakeRelayPin, ovenBroilRelayPin]
  · unfold ovenShouldBeOn hysteresisMargin
    simp only [decide_eq_true_eq]
  · intro hc
    rw [hr, hl, hg]
    unfold ovenControl
    rw [hspeq, hmode]
    simp only [← ht, hrel, hlast]
    rw [if_pos (by
      simp only [Bool.and_eq_true, bne_iff_ne, ne_eq, decide_eq_true_eq, debounceDelay]
      exact hc)]
    simp [pinLevel, digitalWrite, ovenBakeRelayPin, ovenBroilRelayPin]
  · intro hc
    rw [hr, hl, hg]
    unfold ovenControl
    rw [hspeq, hmode]
    simp only [← ht, hrel, hlast]
    rw [if_neg (by
      simp only [Bool.and_eq_true, bne_iff_ne, ne_eq, decide_eq_true_eq, debounceDelay]
      exact hc)]
    exact ⟨rfl, rfl, by rw [hg3]⟩

/-- Witness of C11: the first tick of `ovenChatterRun` (setpoint 25, cold oven)
is a Bake tick. -/
theorem bake_decision_witness :
    0 < (loop setup (tickInputs 2000 0 0 200 0)).ovenSetpoint
    ∧ (loop setup (tickInputs 2000 0 0 200 0)).ovenSetpoint < 550
    ∧ pinLevel (loop setup (tickInputs 2000 0 0 200 0)).gpio ovenBroilRelayPin = false :=
  ⟨by decide, by decide,
   (bake_decision setup (tickInputs 2000 0 0 200 0) (by decide) (by decide)).2.1⟩

/-- Claim C16.  Burner relay step and no drift: in the loop body of a burner,
with `intended` the comparison of the cycle position with the duty just
computed, the relay state becomes `intended`, the time stamp becomes the
clock and the relay pin is written when `intended` differs from the current
relay state and `now - lastRelayChangeTime > 50`; in every other case the relay
state and the time stamp are unchanged and nothing is written; the heaters
after a tick are the results of that body, and for a duty in `[0, 30]` the
intended state is `cycleTime < dutyCycle * 1000`. -/
theorem burner_relay_step (inp : Inputs) (ct : Nat) (pca ors any : Bool) (h : HeaterUnit)
    (g : Gpio) :
    ((shouldBeOn ct (burnerBody inp ct pca ors h any g).1.dutyCycle ≠ h.relayState
        ∧ usub inp.millis h.lastRelayChangeTime > 50) →
      (burnerBody inp ct pca ors h any g).1.relayState
          = shouldBeOn ct (burnerBody inp ct pca ors h any g).1.dutyCycle
      ∧ (burnerBody inp ct pca ors h any g).1.lastRelayChangeTime = inp.millis
      ∧ (burnerBody inp ct pca ors h any g).2.2
          = digitalWrite g h.relayPin
              (shouldBeOn ct (burnerBody inp ct pca ors h any g).1.dutyCycle))
    ∧ (¬ (shouldBeOn ct (burnerBody inp ct pca ors h any g).1.dutyCycle ≠ h.relayState
        ∧ usub inp.millis h.lastRelayChangeTime > 50) →
      (burnerBody inp ct pca ors h any g).1.relayState = h.relayState
      ∧ (burnerBody inp ct pca ors h any g).1.lastRelayChangeTime = h.lastRelayChangeTime
      ∧ (burnerBody inp ct pca ors h any g).2.2 = g)
    ∧ (burnerBody inp ct pca ors h any g).1 = burnerUpdate inp ct h
    ∧ (∀ st : State, (loop st inp).heaters
        = st.heaters.map (burnerUpdate inp (cyclePosition st.cycleStartTime inp.millis).2))
    ∧ (∀ d : Nat, d ≤ 30 → (shouldBeOn ct (d : Int) = true ↔ ct < d * 1000)) := by
  have hd : (burnerBody inp ct pca ors h any g).1.dutyCycle
      = (dutyStage (smoothing h (inp.analogRead h.adcPin))).dutyCycle := by
    simp only [burnerBody, relayStage]
    split <;> rfl
  rw [hd]
  refine ⟨?_, ?_, ?_, fun st => loop_heaters st inp, ?_⟩
  · intro hc
    simp only [burnerBody, relayStage]
    rw [if_pos (by
      simp only [Bool.and_eq_true, bne_iff_ne, ne_eq, decide_eq_true_eq, debounceDelay]
      exact hc)]
    exact ⟨rfl, rfl, rfl⟩
  · intro hc
    simp only [burnerBody, relayStage]
    rw [if_neg (by
      simp only [Bool.and_eq_true, bne_iff_ne, ne_eq, decide_eq_true_eq, debounceDelay]
      exact hc)]
    exact ⟨rfl, rfl, rfl⟩
  · simp only [burnerBody, burnerUpdate]
    exact relayStage_fst _ _ _ _
  · intro d hd30
    rw [shouldBeOn_nat d hd30]
    simp only [decide_eq_true_eq]

/-! ## Ranges and ring-buffer invariants: facts -/

section RangeFacts

/-- Overwriting one slot changes the sum by the difference of the two values. -/
theorem sum_set_slot (l : List Int) (i : Nat) (v : Int) (hi : i < l.length) :
    (l.set i v).sum = l.sum - l.getD i 0 + v := by
  induction l generalizing i with
  | nil => simp at hi
  | cons a t ih =>
    cases i with
    | zero => simp only [List.set_cons_zero, List.sum_cons, List.getD_cons_zero]; ring
    | succ n =>
      have hn : n < t.length := by simpa using hi
      simp only [List.set_cons_succ, List.sum_cons, List.getD_cons_succ, ih n hn]
      ring

/-- One ring-buffer update keeps the slot invariant. -/
theorem ringUpdate_slot (rd : List Int) (idx tot s : Int) (h : SlotInv rd idx tot) :
    SlotInv (ringUpdate rd idx tot s).1 (ringUpdate rd idx tot s).2.2
      (ringUpdate rd idx tot s).2.1 := by
  obtain ⟨hl, h0, h10, ht⟩ := h
  obtain ⟨i, rfl⟩ := Int.eq_ofNat_of_zero_le h0
  have hi : i < rd.length := by omega
  have hmod : ((i : Int) + 1).tmod 10 = ((i : Int) + 1) % 10 :=
    Int.tmod_eq_emod (by omega) (by omega)
  unfold ringUpdate readSlot writeSlot numReadings
  simp only [h0, if_true, Int.toNat_ofNat]
  refine ⟨by simp [hl], by rw [hmod]; omega, by rw [hmod]; omega, ?_⟩
  have hnew : (rd.set i s).getD i 0 = s := by
    rw [List.getD_eq_getElem?_getD, List.getElem?_set_self hi]
    rfl
  rw [hnew, sum_set_slot rd i s hi, ht]

/-- Bounds on the sum of a list of values of the ADC range. -/
theorem sum_adc_bounds (l : List Int) (h : ∀ x ∈ l, 0 ≤ x ∧ x ≤ 4095) :
    0 ≤ l.sum ∧ l.sum ≤ 4095 * l.length := by
  induction l with
  | nil => simp
  | cons a t ih =>
    have ha := h a (List.mem_cons_self _ _)
    have ht := ih (fun x hx => h x (List.mem_cons_of_mem _ hx))
    simp only [List.sum_cons, List.length_cons]
    push_cast
    omega

/-- A list of values of at most 4095 whose sum is maximal holds only 4095. -/
theorem sum_adc_max (l : List Int) (h : ∀ x ∈ l, 0 ≤ x ∧ x ≤ 4095)
    (hs : l.sum = 4095 * l.length) : ∀ x ∈ l, x = 4095 := by
  induction l with
  | nil => intro x hx; simp at hx
  | cons a t ih =>
    have ha := h a (List.mem_cons_self _ _)
    have hb := sum_adc_bounds t (fun x hx => h x (List.mem_cons_of_mem _ hx))
    simp only [List.sum_cons, List.length_cons] at hs
    push_cast at hs
    intro x hx
    rcases List.mem_cons.mp hx with rfl | hx
    · omega
    · exact ih (fun y hy => h y (List.mem_cons_of_mem _ hy)) (by omega) x hx

/-- During warm-up the window is the samples seen, preceded by the remaining
initial zeros. -/
theorem window_warmup (ss : List Int) (h : ss.length ≤ 10) :
    window ss = List.replicate (10 - ss.length) 0 ++ ss := by
  unfold window
  rw [List.drop_append_of_le_length (by rw [List.length_replicate]; exact h),
    List.drop_replicate]

/-- Every value of the window is an initial zero or a sample. -/
theorem window_mem (ss : List Int) (x : Int) (hx : x ∈ window ss) : x = 0 ∨ x ∈ ss := by
  unfold window at hx
  rcases List.mem_append.mp (List.mem_of_mem_drop hx) with h | h
  · exact Or.inl (List.eq_of_mem_replicate h)
  · exact Or.inr h

/-- With samples of the ADC range the window holds values of the ADC range. -/
theorem window_adc (ss : List Int) (h : ∀ s ∈ ss, 0 ≤ s ∧ s ≤ 4095) :
    ∀ x ∈ window ss, 0 ≤ x ∧ x ≤ 4095 := by
  intro x hx
  rcases window_mem ss x hx with rfl | hm
  · omega
  · exact h x hm

/-- The mean of a window of ADC-range values is in the ADC range. -/
theorem mean_adc (w : List Int) (hw : w.length = 10) (h : ∀ x ∈ w, 0 ≤ x ∧ x ≤ 4095) :
    0 ≤ w.sum.tdiv 10 ∧ w.sum.tdiv 10 ≤ 4095 := by
  have hb := sum_adc_bounds w h
  rw [hw] at hb
  rw [Int.tdiv_eq_ediv hb.1 (by omega)]
  push_cast at hb
  omega

/-- The hysteresis step returns one of its two arguments. -/
theorem newDutyCycle_cases (p r : Int) : newDutyCycle p r = p ∨ newDutyCycle p r = r := by
  unfold newDutyCycle
  split
  · exact Or.inr rfl
  · split
    · exact Or.inr rfl
    · exact Or.inl rfl

/-- The relay stage touches only the relay state and its time stamp. -/
theorem relayStage_frame (x : HeaterUnit) (ct now : Nat) (g : Gpio) :
    (relayStage x ct now g).1.adcPin = x.adcPin
    ∧ (relayStage x ct now g).1.readings = x.readings
    ∧ (relayStage x ct now g).1.readIndex = x.readIndex
    ∧ (relayStage x ct now g).1.total = x.total
    ∧ (relayStage x ct now g).1.dutyCycle = x.dutyCycle
    ∧ (relayStage x ct now g).1.lastDutyCycle = x.lastDutyCycle := by
  unfold relayStage
  split <;> exact ⟨rfl, rfl, rfl, rfl, rfl, rfl⟩

/-- The loop body keeps a burner channel inside its ranges when the sample it
reads is in the ADC range. -/
theorem burnerUpdate_ok (inp : Inputs) (ct : Nat) (h : HeaterUnit)
    (hin : (0 ≤ inp.analogRead 34 ∧ inp.analogRead 34 ≤ 4095)
      ∧ (0 ≤ inp.analogRead 35 ∧ inp.analogRead 35 ≤ 4095))
    (hok : HeaterOk h) : HeaterOk (burnerUpdate inp ct h) := by
  obtain ⟨hpin, ⟨w, hw, hwb⟩, hd0, hd30, hl0, hl30⟩ := hok
  have hs : 0 ≤ inp.analogRead h.adcPin ∧ inp.analogRead h.adcPin ≤ 4095 := by
    rcases hpin with hp | hp <;> rw [hp]
    · exact hin.1
    · exact hin.2
  obtain ⟨f1, f2, f3, f4, f5, f6⟩ :=
    relayStage_frame (dutyStage (smoothing h (inp.analogRead h.adcPin))) ct inp.millis []
  have hinv := ringUpdate_inv h.readings h.readIndex h.total w (inp.analogRead h.adcPin) hw
  have hwb2 : ∀ x ∈ w.tail ++ [inp.analogRead h.adcPin], 0 ≤ x ∧ x ≤ 4095 := by
    intro x hx
    rcases List.mem_append.mp hx with hx | hx
    · exact hwb x (List.mem_of_mem_tail hx)
    · rw [List.mem_singleton.mp hx]; exact hs
  have hmean := mean_adc _ hinv.2.1 hwb2
  rw [← hinv.2.2.2.2.1] at hmean
  have hraw := map_duty _ hmean.1
  have hduty : 0 ≤ newDutyCycle h.lastDutyCycle
        (map ((ringUpdate h.readings h.readIndex h.total (inp.analogRead h.adcPin)).2.1.tdiv 10)
          0 4095 0 30)
      ∧ newDutyCycle h.lastDutyCycle
        (map ((ringUpdate h.readings h.readIndex h.total (inp.analogRead h.adcPin)).2.1.tdiv 10)
          0 4095 0 30) ≤ 30 := by
    rcases newDutyCycle_cases h.lastDutyCycle
      (map ((ringUpdate h.readings h.readIndex h.total (inp.analogRead h.adcPin)).2.1.tdiv 10)
          0 4095 0 30) with e | e <;> rw [e]
    · exact ⟨hl0, hl30⟩
    · rw [hraw]; omega
  unfold HeaterOk burnerUpdate
  rw [f1, f2, f3, f4, f5, f6]
  exact ⟨hpin, ⟨_, hinv, hwb2⟩, hduty.1, hduty.2, hduty.1, hduty.2⟩

/-- The invariant holds for every heater along a run fed with ADC-range
samples. -/
theorem run_ok (inps : List Inputs)
    (hin : ∀ inp ∈ inps, (0 ≤ inp.analogRead 34 ∧ inp.analogRead 34 ≤ 4095)
      ∧ (0 ≤ inp.analogRead 35 ∧ inp.analogRead 35 ≤ 4095))
    (st : State) (hst : ∀ h ∈ st.heaters, HeaterOk h) :
    ∀ h ∈ (run st inps).heaters, HeaterOk h := by
  induction inps generalizing st with
  | nil => exact hst
  | cons inp rest ih =>
    unfold run
    rw [List.foldl_cons]
    apply ih (fun x hx => hin x (List.mem_cons_of_mem _ hx))
    intro h hh
    rw [loop_heaters] at hh
    obtain ⟨h0, hh0, rfl⟩ := List.mem_map.mp hh
    exact burnerUpdate_ok inp _ h0 (hin inp (List.mem_cons_self _ _)) (hst h0 hh0)

/-- The zero buffer satisfies the window invariant for the window of ten zeros. -/
theorem ringInv_zero : RingInv (List.replicate 10 0) 0 0 (List.replicate 10 0) := by
  refine ⟨by simp, by simp, by omega, by omega, by simp, fun j hj => ?_⟩
  simp [Nat.mod_eq_of_lt hj]

/-- Both burners of the initial state satisfy the invariant. -/
theorem setup_ok : ∀ h ∈ setup.heaters, HeaterOk h := by
  intro h hh
  have hz : ∀ x ∈ List.replicate 10 (0 : Int), 0 ≤ x ∧ x ≤ 4095 := by
    intro x hx
    rw [List.eq_of_mem_replicate hx]
    omega
  simp only [setup, heaters, List.mem_cons, List.mem_singleton, List.not_mem_nil, or_false] at hh
  rcases hh with rfl | rfl
  · exact ⟨Or.inl rfl, ⟨_, ringInv_zero, hz⟩, by decide, by decide, by decide, by decide⟩
  · exact ⟨Or.inr rfl, ⟨_, ringInv_zero, hz⟩, by decide, by decide, by decide, by decide⟩

end RangeFacts

/-- Claim C13.  Duty range invariant: in every run from the initial state
whose burner samples (pins 34 and 35) all lie in `[0, 4095]`, after every
tick each channel has `dutyCycle` and `lastDutyCycle` in `[0, 30]`. -/
theorem duty_range_invariant (inps : List Inputs)
    (hin : ∀ inp ∈ inps, (0 ≤ inp.analogRead 34 ∧ inp.analogRead 34 ≤ 4095)
      ∧ (0 ≤ inp.analogRead 35 ∧ inp.analogRead 35 ≤ 4095))
    (k : Nat) :
    ∀ h ∈ (stateAt setup inps k).heaters,
      0 ≤ h.dutyCycle ∧ h.dutyCycle ≤ 30 ∧ 0 ≤ h.lastDutyCycle ∧ h.lastDutyCycle ≤ 30 := by
  intro h hh
  unfold stateAt at hh
  have hok := run_ok (inps.take k) (fun x hx => hin x (List.mem_of_mem_take hx))
    setup setup_ok h hh
  exact hok.2.2

/-- Witness of C13 on `fullDutyRun`: after its twelve ticks burner 1 is at
duty 30 and burner 2 at duty 0. -/
theorem duty_range_invariant_witness :
    (stateAt setup fullDutyRun 12).heaters.map (fun h => h.dutyCycle) = [30, 0]
    ∧ ∀ h ∈ (stateAt setup fullDutyRun 12).heaters,
        0 ≤ h.dutyCycle ∧ h.dutyCycle ≤ 30 ∧ 0 ≤ h.lastDutyCycle ∧ h.lastDutyCycle ≤ 30 :=
  ⟨by decide,
   duty_range_invariant fullDutyRun
     (by
       intro inp hi
       simp only [fullDutyRun, List.mem_map] at hi
       obtain ⟨n, -, rfl⟩ := hi
       refine ⟨⟨?_, ?_⟩, ⟨?_, ?_⟩⟩ <;> simp [tickInputs])
     12⟩

/-- Claim C14.  Conditioned value stays in the ADC range: from the
zero-initialised buffer and with samples in `[0, 4095]`, after every update,
the warm-up updates included, the conditioned value is in `[0, 4095]`, for
the burner channel and for the oven channel. -/
theorem conditioned_value_in_range (samples : List Int)
    (hs : ∀ s ∈ samples, 0 ≤ s ∧ s ≤ 4095) (k : Nat) (hk : k < samples.length) :
    (∀ h : HeaterUnit, h.readings = List.replicate 10 0 → h.readIndex = 0 → h.total = 0 →
        0 ≤ ((samples.take (k + 1)).foldl smoothing h).adcValue
        ∧ ((samples.take (k + 1)).foldl smoothing h).adcValue ≤ 4095)
    ∧ (∀ st : State, st.ovenReadings = List.replicate 10 0 → st.ovenReadIndex = 0 →
        st.ovenTotal = 0 →
        0 ≤ ((samples.take (k + 1)).foldl ovenSmoothing st).ovenAdcValue
        ∧ ((samples.take (k + 1)).foldl ovenSmoothing st).ovenAdcValue ≤ 4095) := by
  have hne : samples.take (k + 1) ≠ [] := by
    intro h
    have hl := congrArg List.length h
    rw [List.length_take] at hl
    simp only [List.length_nil] at hl
    omega
  have hb := window_adc (samples.take (k + 1)) (fun x hx => hs x (List.mem_of_mem_take hx))
  have hm := mean_adc _ (window_length _) hb
  constructor
  · intro h h1 h2 h3
    rw [(ring_run smoothing (fun x => x.readings) (fun x => x.readIndex) (fun x => x.total)
      (fun x => x.adcValue) (fun _ _ => ⟨rfl, rfl, rfl, rfl⟩) h h1 h2 h3 _).2 hne]
    exact hm
  · intro st h1 h2 h3
    rw [(ring_run ovenSmoothing (fun x => x.ovenReadings) (fun x => x.ovenReadIndex)
      (fun x => x.ovenTotal) (fun x => x.ovenAdcValue) (fun _ _ => ⟨rfl, rfl, rfl, rfl⟩)
      st h1 h2 h3 _).2 hne]
    exact hm

/-- Witness of C14: after one full-scale sample the conditioned value is 409. -/
theorem conditioned_value_in_range_witness :
    (([4095, (4095 : Int)].take 1).foldl smoothing
        (HeaterUnit.ctor "Burner 1" 34 12)).adcValue = 409
    ∧ 0 ≤ (([4095, (4095 : Int)].take 1).foldl smoothing
        (HeaterUnit.ctor "Burner 1" 34 12)).adcValue
    ∧ (([4095, (4095 : Int)].take 1).foldl smoothing
        (HeaterUnit.ctor "Burner 1" 34 12)).adcValue ≤ 4095 :=
  ⟨by decide,
   (conditioned_value_in_range [4095, 4095]
     (by
       intro s hx
       simp only [List.mem_cons, List.mem_singleton, List.not_mem_nil, or_false, or_self] at hx
       rw [hx]
       exact ⟨by decide, by decide⟩)
     0 (by decide)).1 (HeaterUnit.ctor "Burner 1" 34 12) rfl rfl rfl⟩

/-- Claim C19.  Ring-buffer invariant: every smoothing update, burner or oven,
keeps ten slots, `0 ≤ readIndex < 10` and `total` equal to the sum of the
slots, and the initial buffers satisfy this; from the zero-initialised state,
after `k < 10` updates the conditioned value is the sum of the `k` samples
divided by 10 (one full-scale sample gives 409, not 4095). -/
theorem ring_buffer_invariant :
    (∀ (h : HeaterUnit) (s : Int), SlotInv h.readings h.readIndex h.total →
        SlotInv (smoothing h s).readings (smoothing h s).readIndex (smoothing h s).total)
    ∧ (∀ (st : State) (s : Int), SlotInv st.ovenReadings st.ovenReadIndex st.ovenTotal →
        SlotInv (ovenSmoothing st s).ovenReadings (ovenSmoothing st s).ovenReadIndex
          (ovenSmoothing st s).ovenTotal)
    ∧ (∀ (lbl : String) (adc relay : Int),
        SlotInv (HeaterUnit.ctor lbl adc relay).readings (HeaterUnit.ctor lbl adc relay).readIndex
          (HeaterUnit.ctor lbl adc relay).total)
    ∧ SlotInv setup.ovenReadings setup.ovenReadIndex setup.ovenTotal
    ∧ (∀ samples : List Int, samples.length < 10 →
        (∀ h : HeaterUnit, h.readings = List.replicate 10 0 → h.readIndex = 0 → h.total = 0 →
          h.adcValue = 0 → (samples.foldl smoothing h).adcValue = samples.sum.tdiv 10)
        ∧ (∀ st : State, st.ovenReadings = List.replicate 10 0 → st.ovenReadIndex = 0 →
          st.ovenTotal = 0 → st.ovenAdcValue = 0 →
          (samples.foldl ovenSmoothing st).ovenAdcValue = samples.sum.tdiv 10))
    ∧ ([(4095 : Int)].foldl smoothing (HeaterUnit.ctor "Burner 1" 34 12)).adcValue = 409 := by
  have hzero : SlotInv (List.replicate 10 0) 0 0 :=
    ⟨by simp, by omega, by omega, by simp⟩
  have hsum : ∀ samples : List Int, samples.length < 10 →
      (window samples).sum = samples.sum := by
    intro samples hk
    rw [window_warmup samples (by omega)]
    simp
  refine ⟨fun h s hi => ringUpdate_slot _ _ _ s hi, fun st s hi => ringUpdate_slot _ _ _ s hi,
    fun _ _ _ => hzero, hzero, ?_, by decide⟩
  intro samples hk
  constructor
  · intro h h1 h2 h3 h4
    by_cases hne : samples = []
    · subst hne
      simpa using h4
    · rw [(ring_run smoothing (fun x => x.readings) (fun x => x.readIndex) (fun x => x.total)
        (fun x => x.adcValue) (fun _ _ => ⟨rfl, rfl, rfl, rfl⟩) h h1 h2 h3 _).2 hne,
        hsum samples hk]
  · intro st h1 h2 h3 h4
    by_cases hne : samples = []
    · subst hne
      simpa using h4
    · rw [(ring_run ovenSmoothing (fun x => x.ovenReadings) (fun x => x.ovenReadIndex)
        (fun x => x.ovenTotal) (fun x => x.ovenAdcValue) (fun _ _ => ⟨rfl, rfl, rfl, rfl⟩)
        st h1 h2 h3 _).2 hne, hsum samples hk]

/-! ## Reported duty along a run: facts -/

section DutyRunFacts

/-- What the loop body does to the duty fields and to the smoothing fields of
a heater: the new duty is the hysteresis step from `lastDutyCycle`, it is fed
back into `lastDutyCycle` (line 192), and the smoothing fields are those of
`smoothing`. -/
theorem burnerUpdate_duty (inp : Inputs) (ct : Nat) (h : HeaterUnit) :
    (burnerUpdate inp ct h).dutyCycle
        = newDutyCycle h.lastDutyCycle (map (burnerUpdate inp ct h).adcValue 0 4095 0 30)
    ∧ (burnerUpdate inp ct h).lastDutyCycle = (burnerUpdate inp ct h).dutyCycle
    ∧ (burnerUpdate inp ct h).adcPin = h.adcPin
    ∧ (burnerUpdate inp ct h).readings = (smoothing h (inp.analogRead h.adcPin)).readings
    ∧ (burnerUpdate inp ct h).readIndex = (smoothing h (inp.analogRead h.adcPin)).readIndex
    ∧ (burnerUpdate inp ct h).total = (smoothing h (inp.analogRead h.adcPin)).total
    ∧ (burnerUpdate inp ct h).adcValue = (smoothing h (inp.analogRead h.adcPin)).adcValue := by
  unfold burnerUpdate relayStage
  split <;> exact ⟨rfl, rfl, rfl, rfl, rfl, rfl, rfl⟩

/-- The duty of burner `b` over one tick: hysteresis step from the stored
previous duty on the raw duty of the tick, fed back into the stored duty. -/
theorem duty_step (st : State) (inp : Inputs) (b : Nat) :
    burnerLastDuty (loop st inp) b = burnerDuty (loop st inp) b
    ∧ burnerDuty (loop st inp) b
        = newDutyCycle (burnerLastDuty st b) (burnerRawDuty (loop st inp) b) := by
  unfold burnerLastDuty burnerDuty burnerRawDuty
  rw [loop_heaters, List.getElem?_map]
  cases hb : st.heaters[b]? with
  | none => exact ⟨rfl, (by decide : (0 : Int) = newDutyCycle 0 0)⟩
  | some h =>
    simp only [Option.map_some']
    exact ⟨(burnerUpdate_duty inp _ h).2.1, (burnerUpdate_duty inp _ h).1⟩

/-- Along a run the stored previous duty stays equal to the reported duty. -/
theorem run_duty_sync (inps : List Inputs) (b : Nat) (st : State)
    (hst : burnerLastDuty st b = burnerDuty st b) :
    burnerLastDuty (run st inps) b = burnerDuty (run st inps) b := by
  induction inps generalizing st with
  | nil => exact hst
  | cons inp rest ih =>
    unfold run
    rw [List.foldl_cons]
    exact ih (loop st inp) (duty_step st inp b).1

/-- In the initial state both duty fields of every burner are 0. -/
theorem setup_duty_sync (b : Nat) : burnerLastDuty setup b = burnerDuty setup b := by
  unfold burnerLastDuty burnerDuty setup heaters
  match b with
  | 0 => rfl
  | 1 => rfl
  | (n + 2) => rfl

/-- The reported duty after tick `k` of a run from the initial state is the
hysteresis step from the duty reported before it. -/
theorem duty_tick (inps : List Inputs) (b k : Nat) (hk : k < inps.length) :
    burnerDuty (stateAt setup inps (k + 1)) b
      = newDutyCycle (burnerDuty (stateAt setup inps k) b)
          (burnerRawDuty (stateAt setup inps (k + 1)) b) := by
  obtain ⟨inp, -, -, hst⟩ := stateAt_succ setup inps k hk
  rw [hst, (duty_step _ inp b).2]
  congr 1
  exact run_duty_sync (inps.take k) b setup (setup_duty_sync b)

end DutyRunFacts

/-- Claim C4.  Hysteresis stability: the duty step returns the previous duty
`p` when the raw duty `r` is within 2 units of it and returns `r` exactly when
`r > p + 2` or `r < p - 2`; the duty stage reports that step as `dutyCycle`
and feeds it back as the next previous duty; in every run from the initial
state the duty reported after a tick is the step from the duty reported
before it, so it is unchanged when the raw duty of the tick is within 2 of
it and is the raw duty otherwise; hence from a tick where the reported duty
is `p`, as long as the raw duties stay within 2 units of `p` the reported
duty never changes. -/
theorem hysteresis_stability (p : Int) :
    (∀ r : Int, |r - p| ≤ 2 → newDutyCycle p r = p)
    ∧ (∀ r : Int, (r > p + 2 ∨ r < p - 2) → newDutyCycle p r = r)
    ∧ (∀ rs : List Int, (∀ r ∈ rs, |r - p| ≤ 2) →
        ∀ k : Nat, (rs.take k).foldl newDutyCycle p = p)
    ∧ (∀ h : HeaterUnit,
        (dutyStage h).dutyCycle = newDutyCycle h.lastDutyCycle (map h.adcValue 0 4095 0 30)
        ∧ (dutyStage h).lastDutyCycle = (dutyStage h).dutyCycle)
    ∧ (∀ (inps : List Inputs) (b k : Nat), k < inps.length →
        burnerDuty (stateAt setup inps k) b = p →
        burnerLastDuty (stateAt setup inps (k + 1)) b
            = burnerDuty (stateAt setup inps (k + 1)) b
        ∧ (|burnerRawDuty (stateAt setup inps (k + 1)) b - p| ≤ 2 →
            burnerDuty (stateAt setup inps (k + 1)) b = p)
        ∧ ((burnerRawDuty (stateAt setup inps (k + 1)) b > p + 2
              ∨ burnerRawDuty (stateAt setup inps (k + 1)) b < p - 2) →
            burnerDuty (stateAt setup inps (k + 1)) b
              = burnerRawDuty (stateAt setup inps (k + 1)) b))
    ∧ (∀ (inps : List Inputs) (b i : Nat),
        burnerDuty (stateAt setup inps i) b = p →
        (∀ k : Nat, i ≤ k → k < inps.length →
          |burnerRawDuty (stateAt setup inps (k + 1)) b - p| ≤ 2) →
        ∀ k : Nat, i ≤ k → k ≤ inps.length → burnerDuty (stateAt setup inps k) b = p) := by
  have hold : ∀ r : Int, |r - p| ≤ 2 → newDutyCycle p r = p := by
    intro r hr
    have h := abs_le.mp hr
    unfold newDutyCycle hysteresisMargin
    rw [if_neg (by omega), if_neg (by omega)]
  have snap : ∀ r : Int, (r > p + 2 ∨ r < p - 2) → newDutyCycle p r = r := by
    intro r hr
    unfold newDutyCycle hysteresisMargin
    rcases hr with h | h
    · rw [if_pos h]
    · split <;> rfl
  refine ⟨hold, snap, ?_, fun h => ⟨rfl, rfl⟩, ?_, ?_⟩
  · intro rs
    induction rs with
    | nil => intro _ k; simp
    | cons r t ih =>
      intro hall k
      cases k with
      | zero => simp
      | succ k =>
        simp only [List.take_succ_cons, List.foldl_cons]
        rw [hold r (hall r (List.mem_cons_self _ _))]
        exact ih (fun x hx => hall x (List.mem_cons_of_mem _ hx)) k
  · intro inps b k hk hp
    have ht := duty_tick inps b k hk
    rw [hp] at ht
    refine ⟨?_, fun hb => ?_, fun hb => ?_⟩
    · exact run_duty_sync (inps.take (k + 1)) b setup (setup_duty_sync b)
    · rw [ht]; exact hold _ hb
    · rw [ht]; exact snap _ hb
  · intro inps b i hp hband k hik hk
    induction k, hik using Nat.le_induction with
    | base => exact hp
    | succ k hik ih =>
      rw [duty_tick inps b k (by omega), ih (by omega)]
      exact hold _ (hband k hik (by omega))

/-- Witness of C4 on `steadyRun`: burner 1 reports duty 13 from tick 10 on
while the raw duty is 15, inside the band. -/
theorem hysteresis_stability_witness :
    burnerDuty (stateAt setup steadyRun 10) 0 = 13
    ∧ burnerRawDuty (stateAt setup steadyRun 14) 0 = 15
    ∧ burnerDuty (stateAt setup steadyRun 14) 0 = 13 :=
  ⟨by decide, by decide,
   (hysteresis_stability 13).2.2.2.2.2 steadyRun 0 10 (by decide)
     (by
       intro k h1 h2
       have h3 : k < 14 := h2
       interval_cases k <;> exact abs_le.mpr ⟨by decide, by decide⟩)
     14 (by decide) (by decide)⟩

/-! ## Top of scale: facts -/

section TopFacts

/-- Smoothing reads only the smoothing fields. -/
theorem foldl_smoothing_sameRing (ss : List Int) (h k : HeaterUnit) (hs : SameRing h k) :
    SameRing (ss.foldl smoothing h) (ss.foldl smoothing k) := by
  induction ss generalizing h k with
  | nil => exact hs
  | cons s t ih =>
    simp only [List.foldl_cons]
    apply ih
    obtain ⟨h1, h2, h3, -⟩ := hs
    simp [SameRing, smoothing, h1, h2, h3]

/-- Along a run, the smoothing fields of burner `b` are those obtained by
feeding `smoothing` with the samples read on its pin. -/
theorem run_smoothing (inps : List Inputs) (b : Nat) (st : State) (h0 : HeaterUnit)
    (hb : st.heaters[b]? = some h0) :
    ∃ h : HeaterUnit, (run st inps).heaters[b]? = some h ∧ h.adcPin = h0.adcPin
      ∧ SameRing h ((inps.map (fun i => i.analogRead h0.adcPin)).foldl smoothing h0) := by
  induction inps generalizing st h0 with
  | nil => exact ⟨h0, hb, rfl, rfl, rfl, rfl, rfl⟩
  | cons inp rest ih =>
    have h1 : (loop st inp).heaters[b]?
        = some (burnerUpdate inp (cyclePosition st.cycleStartTime inp.millis).2 h0) := by
      rw [loop_heaters, List.getElem?_map, hb]
      rfl
    obtain ⟨e1, e2, e3, e4, e5, e6, e7⟩ :=
      burnerUpdate_duty inp (cyclePosition st.cycleStartTime inp.millis).2 h0
    obtain ⟨h, hh, hpin, hring⟩ := ih (loop st inp) _ h1
    rw [e3] at hpin hring
    have hcongr := foldl_smoothing_sameRing (rest.map (fun i => i.analogRead h0.adcPin))
      (burnerUpdate inp (cyclePosition st.cycleStartTime inp.millis).2 h0)
      (smoothing h0 (inp.analogRead h0.adcPin)) ⟨e4, e5, e6, e7⟩
    refine ⟨h, hh, hpin, ?_⟩
    simp only [List.map_cons, List.foldl_cons]
    exact ⟨hring.1.trans hcongr.1, hring.2.1.trans hcongr.2.1,
      hring.2.2.1.trans hcongr.2.2.1, hring.2.2.2.trans hcongr.2.2.2⟩

/-- With samples of the ADC range from the zero-initialised channel, a raw duty
of 30 needs at least ten samples, the last ten all equal to 4095. -/
theorem raw_full_needs_top (samples : List Int) (h : HeaterUnit)
    (hs : ∀ s ∈ samples, 0 ≤ s ∧ s ≤ 4095)
    (r1 : h.readings = List.replicate 10 0) (r2 : h.readIndex = 0) (r3 : h.total = 0)
    (r4 : h.adcValue = 0)
    (hfull : map (samples.foldl smoothing h).adcValue 0 4095 0 30 = 30) :
    10 ≤ samples.length ∧ ∀ s ∈ samples.drop (samples.length - 10), s = 4095 := by
  by_cases hne : samples = []
  · subst hne
    simp only [List.foldl_nil, r4] at hfull
    exact absurd hfull (by decide)
  · have hadc := (ring_run smoothing (fun y => y.readings) (fun y => y.readIndex)
      (fun y => y.total) (fun y => y.adcValue) (fun _ _ => ⟨rfl, rfl, rfl, rfl⟩)
      h r1 r2 r3 samples).2 hne
    have hwb := window_adc samples hs
    have hmean := mean_adc _ (window_length samples) hwb
    have hbnd := sum_adc_bounds _ hwb
    rw [window_length samples] at hbnd
    push_cast at hbnd
    rw [hadc, map_duty _ hmean.1, Int.tdiv_eq_ediv hbnd.1 (by omega)] at hfull
    have hall := sum_adc_max (window samples) hwb (by
      rw [window_length samples]
      push_cast
      omega)
    have hlen : 10 ≤ samples.length := by
      by_contra hlt
      have hw := window_warmup samples (by omega)
      have hz : (0 : Int) ∈ window samples := by
        rw [hw]
        apply List.mem_append_left
        rw [List.mem_replicate]
        exact ⟨by omega, rfl⟩
      exact absurd (hall 0 hz) (by decide)
    refine ⟨hlen, ?_⟩
    rw [← window_full samples hlen]
    exact hall

end TopFacts

/-- Claim C20 (the statement as made fails).  After `heldFullDutyRun` burner 1
reports full duty 30 with its relay on, while the raw duty is 28 and the last
ten samples on its pin are all 3900: full duty is held without any sample at
4095. -/
theorem full_duty_held_below_top :
    burnerDuty (run setup heldFullDutyRun) 0 = 30
    ∧ burnerRelay (run setup heldFullDutyRun) 0 = true
    ∧ burnerRawDuty (run setup heldFullDutyRun) 0 = 28
    ∧ (heldFullDutyRun.drop (heldFullDutyRun.length - 10)).map (fun i => i.analogRead 34)
        = List.replicate 10 3900 := by
  decide

/-- Claim C20, amended.  Top of scale is reached only at the maximum ADC code:
for `x` in `[0, 4095]` the raw duty `map(x, 0, 4095, 0, 30)` is 30 iff
`x = 4095`, the setpoint `map(x, 0, 4095, 0, 22) * 25` is 550 iff `x = 4095`,
and a tick that reads `x` on the potentiometer is a Broil tick iff `x = 4095`;
with samples in `[0, 4095]` from the zero-initialised channel, a raw duty of 30
needs at least ten samples, the last ten all equal to 4095; in a run from the
initial state with burner samples in `[0, 4095]`, a tick after which a burner
reports duty 30 without having reported it before that tick has read, with
the nine ticks before it, ten samples of 4095 on the pin of that burner; a
reported duty of 30 is kept for every raw duty from 28 to 32. -/
theorem top_of_scale (x : Int) (h0 : 0 ≤ x) (h1 : x ≤ 4095) :
    (map x 0 4095 0 30 = 30 ↔ x = 4095)
    ∧ (map x 0 4095 0 22 * 25 = 550 ↔ x = 4095)
    ∧ (ovenMode (map x 0 4095 0 22 * 25) = OvenMode.Broil ↔ x = 4095)
    ∧ (∀ (st : State) (inp : Inputs), inp.analogRead ovenPotPin = x →
        (ovenMode (loop st inp).ovenSetpoint = OvenMode.Broil ↔ x = 4095))
    ∧ (∀ (samples : List Int) (h : HeaterUnit),
        (∀ s ∈ samples, 0 ≤ s ∧ s ≤ 4095) →
        h.readings = List.replicate 10 0 → h.readIndex = 0 → h.total = 0 → h.adcValue = 0 →
        map (samples.foldl smoothing h).adcValue 0 4095 0 30 = 30 →
        10 ≤ samples.length ∧ ∀ s ∈ samples.drop (samples.length - 10), s = 4095)
    ∧ (∀ (inps : List Inputs) (b k : Nat) (hb : HeaterUnit),
        (∀ inp ∈ inps, (0 ≤ inp.analogRead 34 ∧ inp.analogRead 34 ≤ 4095)
          ∧ (0 ≤ inp.analogRead 35 ∧ inp.analogRead 35 ≤ 4095)) →
        setup.heaters[b]? = some hb → k < inps.length →
        burnerDuty (stateAt setup inps (k + 1)) b = 30 →
        burnerDuty (stateAt setup inps k) b ≠ 30 →
        burnerRawDuty (stateAt setup inps (k + 1)) b = 30
        ∧ 10 ≤ k + 1
        ∧ ∀ inp ∈ (inps.take (k + 1)).drop (k + 1 - 10), inp.analogRead hb.adcPin = 4095)
    ∧ (∀ r : Int, 28 ≤ r → r ≤ 32 → newDutyCycle 30 r = 30) := by
  have hd := map_duty x h0
  have hsx := map_step x h0
  have hbroil : ovenMode (map x 0 4095 0 22 * 25) = OvenMode.Broil ↔ x = 4095 := by
    unfold ovenMode
    rw [hsx]
    constructor
    · intro h
      by_cases hc : x * 22 / 4095 * 25 ≥ 550
      · omega
      · rw [if_neg hc] at h
        split at h <;> exact absurd h (by decide)
    · intro h
      rw [if_pos (by omega)]
  refine ⟨by rw [hd]; omega, by rw [hsx]; omega, hbroil, ?_, ?_, ?_, ?_⟩
  · intro st inp hp
    have hsp : (loop st inp).ovenSetpoint = map x 0 4095 0 22 * 25 := by
      rw [(loop_oven st inp).1, ← hp]
      rfl
    rw [hsp]
    exact hbroil
  · intro samples h hs r1 r2 r3 r4 hfull
    exact raw_full_needs_top samples h hs r1 r2 r3 r4 hfull
  · intro inps b k hb hin hsome hk hnew hold
    have ht := duty_tick inps b k hk
    have hraw : burnerRawDuty (stateAt setup inps (k + 1)) b = 30 := by
      rcases newDutyCycle_cases (burnerDuty (stateAt setup inps k) b)
        (burnerRawDuty (stateAt setup inps (k + 1)) b) with e | e
      · rw [e] at ht
        exact absurd (ht.symm.trans hnew) hold
      · rw [e] at ht
        rw [← ht]; exact hnew
    obtain ⟨h, hh, hpin, hring⟩ := run_smoothing (inps.take (k + 1)) b setup hb hsome
    have hmem : hb ∈ setup.heaters := List.getElem?_mem hsome
    have hzero : hb.readings = List.replicate 10 0 ∧ hb.readIndex = 0 ∧ hb.total = 0
        ∧ hb.adcValue = 0 ∧ (hb.adcPin = 34 ∨ hb.adcPin = 35) := by
      simp only [setup, heaters, List.mem_cons, List.mem_singleton, List.not_mem_nil,
        or_false] at hmem
      rcases hmem with rfl | rfl
      · exact ⟨rfl, rfl, rfl, rfl, Or.inl rfl⟩
      · exact ⟨rfl, rfl, rfl, rfl, Or.inr rfl⟩
    obtain ⟨z1, z2, z3, z4, zpin⟩ := hzero
    have hsamples : ∀ s ∈ (inps.take (k + 1)).map (fun i => i.analogRead hb.adcPin),
        0 ≤ s ∧ s ≤ 4095 := by
      intro s hs
      obtain ⟨i, hi, rfl⟩ := List.mem_map.mp hs
      have hr := hin i (List.mem_of_mem_take hi)
      rcases zpin with e | e <;> rw [e]
      · exact hr.1
      · exact hr.2
    have hrawv : map ((inps.take (k + 1)).map
        (fun i => i.analogRead hb.adcPin) |>.foldl smoothing hb).adcValue 0 4095 0 30 = 30 := by
      rw [← hring.2.2.2]
      unfold burnerRawDuty stateAt at hraw
      rw [hh] at hraw
      exact hraw
    obtain ⟨hlen, hall⟩ := raw_full_needs_top _ hb hsamples z1 z2 z3 z4 hrawv
    have hl : ((inps.take (k + 1)).map (fun i => i.analogRead hb.adcPin)).length = k + 1 := by
      rw [List.length_map, List.length_take]
      omega
    rw [hl] at hlen hall
    refine ⟨hraw, hlen, ?_⟩
    intro inp hi
    apply hall
    rw [← List.map_drop]
    exact List.mem_map_of_mem _ hi
  · intro r hlo hhi
    unfold newDutyCycle hysteresisMargin
    rw [if_neg (by omega), if_neg (by omega)]

/-- Witness of C20: code 4094 gives raw duty 29, code 4095 gives raw duty 30. -/
theorem top_of_scale_witness :
    map 4094 0 4095 0 30 = 29 ∧ map 4095 0 4095 0 30 = 30
    ∧ ¬ (map 4094 0 4095 0 30 = 30) :=
  ⟨by decide, (top_of_scale 4095 (by decide) (by decide)).1.mpr rfl,
   fun h => absurd ((top_of_scale 4094 (by decide) (by decide)).1.mp h) (by decide)⟩

end Appliance
